import Mathlib

/-!
Shallow embedding of the NNP wire protocol of the Benny repository
(`src/distributed_network.rs`, `src/secure_network.rs`) and proofs about it.

Modelling conventions:
* Machine integers are `Nat` with explicit `% 2^w` at the places where the
  Rust code truncates (`as u8`, `as u32`); values that carry a Rust integer
  type (`u8`, `u16`, `u32`, `u64`) are `Nat` accompanied by well-formedness
  bounds where a theorem needs them.
* A byte buffer (`Vec<u8>`, `&[u8]`) is a `List Nat` whose members are < 256.
* A Rust `String` is represented by its UTF-8 byte sequence (`List Nat`);
  `String::as_bytes` is the identity on this representation, and
  `String::from_utf8_lossy` applied to bytes that came from `String::as_bytes`
  (always valid UTF-8) is also the identity.
* An `f32` is represented by its 32-bit pattern (`f32::to_bits`), which is
  exactly what the codec reads and writes; `f32::from_bits` is the identity
  on this representation, so bit-exact float round-trip is faithfully visible.
* A `Uuid` is represented by its canonical 16-byte form (`Uuid::as_bytes`).
  `Uuid::from_bytes_le` is modelled by `uuidFromBytesLE` below, following the
  uuid crate: the first three groups (4+2+2 bytes) are byte-reversed.
* A Rust index expression `bytes[i]` that can be out of range is modelled
  explicitly: the result type `PResult` has a third outcome `oob` standing
  for the index-out-of-bounds process abort that Rust performs there.
-/

/-! ## Big-endian byte encodings (the `byteorder` crate calls used by the codec) -/

/-- Big-endian 2-byte encoding, as written by `BigEndian::write_u16`. -/
def be16 (n : Nat) : List Nat := [n / 2^8 % 256, n % 256]

/-- Big-endian 4-byte encoding, as written by `BigEndian::write_u32`
(the Rust call site first truncates with `as u32` where the value is not
already a `u32`; the `% 256` reductions make that truncation explicit). -/
def be32 (n : Nat) : List Nat :=
  [n / 2^24 % 256, n / 2^16 % 256, n / 2^8 % 256, n % 256]

/-- Big-endian 8-byte encoding, as written by `BigEndian::write_u64`. -/
def be64 (n : Nat) : List Nat :=
  [n / 2^56 % 256, n / 2^48 % 256, n / 2^40 % 256, n / 2^32 % 256,
   n / 2^24 % 256, n / 2^16 % 256, n / 2^8 % 256, n % 256]

/-- Big-endian read of a byte slice, as performed by `BigEndian::read_u16`,
`read_u32` and `read_u64` on slices of the matching width. -/
def readBE (l : List Nat) : Nat := l.foldl (fun a b => a * 256 + b) 0

/-! ## CRC32 (the `crc32fast` crate: standard CRC-32/ISO-HDLC) -/

/-- Reflected CRC-32 polynomial 0xEDB88320 used by `crc32fast`. -/
def crcPOLY : Nat := 0xEDB88320

/-- One bit step of the reflected CRC-32 algorithm. -/
def crcBit (c : Nat) : Nat :=
  if c &&& 1 = 1 then (c >>> 1) ^^^ crcPOLY else c >>> 1

/-- Iterate `crcBit` a given number of times. -/
def crcSteps : Nat → Nat → Nat
  | 0, c => c
  | n + 1, c => crcSteps n (crcBit c)

/-- Feed one byte into the running CRC-32 state. -/
def crcByte (c b : Nat) : Nat := crcSteps 8 (c ^^^ b)

/-- CRC-32 of a byte list: initial state 0xFFFFFFFF, bytes folded in,
final complement, exactly the value produced by
`crc32fast::Hasher::new`/`update`/`finalize`. -/
def crc32 (data : List Nat) : Nat :=
  (data.foldl crcByte 0xFFFFFFFF) ^^^ 0xFFFFFFFF

/-! ## Protocol constants (`distributed_network.rs`) -/

/-- Protocol magic bytes "NNP\0" (`PROTOCOL_MAGIC`). -/
def PROTOCOL_MAGIC : List Nat := [0x4E, 0x4E, 0x50, 0x00]

/-- Protocol version (`PROTOCOL_VERSION`). -/
def PROTOCOL_VERSION : Nat := 1

/-- Header size in bytes (`HEADER_SIZE` = 4 + 1 + 1 + 4 + 8 + 4). -/
def HEADER_SIZE : Nat := 22

/-- Message types of the neural network protocol (enum `MessageType`). -/
inductive MessageType where
  | Handshake
  | HandshakeAck
  | ForwardData
  | BackwardData
  | HebbianData
  | WeightSync
  | Heartbeat
  | Disconnect
  | Error
deriving DecidableEq

/-- Discriminant of each `MessageType` (its `#[repr(u8)]` value, used by
`self.msg_type as u8`). -/
def MessageType.code : MessageType → Nat
  | .Handshake => 0x01
  | .HandshakeAck => 0x02
  | .ForwardData => 0x10
  | .BackwardData => 0x11
  | .HebbianData => 0x12
  | .WeightSync => 0x13
  | .Heartbeat => 0x20
  | .Disconnect => 0x21
  | .Error => 0xFF

/-- Conversion of a received byte into a `MessageType`
(`impl From<u8> for MessageType`; every unknown byte maps to `Error`). -/
def MessageType.ofByte (value : Nat) : MessageType :=
  if value = 0x01 then .Handshake
  else if value = 0x02 then .HandshakeAck
  else if value = 0x10 then .ForwardData
  else if value = 0x11 then .BackwardData
  else if value = 0x12 then .HebbianData
  else if value = 0x13 then .WeightSync
  else if value = 0x20 then .Heartbeat
  else if value = 0x21 then .Disconnect
  else .Error

/-- Capability bit flags (module `capabilities`). -/
def FORWARD_PROPAGATION : Nat := 1 <<< 0
/-- Capability bit flag `BACKPROPAGATION`. -/
def BACKPROPAGATION : Nat := 1 <<< 1
/-- Capability bit flag `HEBBIAN_LEARNING`. -/
def HEBBIAN_LEARNING : Nat := 1 <<< 2

/-- Message payloads (enum `MessagePayload`). Strings are UTF-8 byte lists,
floats are 32-bit patterns, node identifiers are canonical 16-byte lists. -/
inductive MessagePayload where
  | Handshake (network_id : List Nat) (name : List Nat) (layers : List Nat)
      (capabilities : Nat)
  | HandshakeAck (network_id : List Nat) (accepted : Bool)
  | ForwardData (layer_id : Nat) (data : List Nat)
  | BackwardData (layer_id : Nat) (gradients : List Nat)
  | HebbianData (layer_id : Nat) (correlations : List Nat) (learning_rate : Nat)
  | WeightSync (layer_id : Nat) (weights : List Nat) (biases : List Nat)
  | Heartbeat (timestamp : Nat)
  | Disconnect (reason : List Nat)
  | Error (code : Nat) (message : List Nat)
deriving DecidableEq

/-- Message structure (struct `NetworkMessage`). -/
structure NetworkMessage where
  msg_type : MessageType
  sequence : Nat
  payload : MessagePayload
deriving DecidableEq

/-- Protocol errors (enum `ProtocolError`; the `IoError` variant wraps a
transport error and never arises in the pure codec, so it is omitted). -/
inductive ProtocolError where
  | InvalidMagic
  | UnsupportedVersion
  | InvalidLength
  | ChecksumMismatch
  | InvalidPayload
  | UnsupportedMessageType
deriving DecidableEq

/-- Result of a Rust function that may return `Ok`, return `Err`, or abort
the process with an index-out-of-bounds panic (`oob`). -/
inductive PResult (α : Type) where
  | ok (val : α)
  | err (e : ProtocolError)
  | oob
deriving DecidableEq

/-! ## Payload serialization (`MessagePayload::to_bytes`) -/

/-- Serialization of a payload to bytes (`MessagePayload::to_bytes`).
Length prefixes are written with `as u8` (hence `% 256`), vector counts
with `write_u32(len as u32)` (hence `be32` of the length), and every
multi-byte number big-endian, exactly as the Rust method pushes them. -/
def MessagePayload.to_bytes : MessagePayload → List Nat
  | .Handshake network_id name layers capabilities =>
      network_id
        ++ [name.length % 256] ++ name
        ++ [layers.length % 256] ++ (layers.map be16).flatten
        ++ be32 capabilities
  | .HandshakeAck network_id accepted =>
      network_id ++ [if accepted then 1 else 0]
  | .ForwardData layer_id data =>
      [layer_id] ++ be32 data.length ++ (data.map be32).flatten
  | .BackwardData layer_id gradients =>
      [layer_id] ++ be32 gradients.length ++ (gradients.map be32).flatten
  | .HebbianData layer_id correlations learning_rate =>
      [layer_id] ++ be32 learning_rate
        ++ be32 correlations.length ++ (correlations.map be32).flatten
  | .WeightSync layer_id weights biases =>
      [layer_id] ++ be32 weights.length ++ (weights.map be32).flatten
        ++ be32 biases.length ++ (biases.map be32).flatten
  | .Heartbeat timestamp => be64 timestamp
  | .Disconnect reason => [reason.length % 256] ++ reason
  | .Error code message =>
      be16 code ++ [message.length % 256] ++ message

/-! ## Message serialization (`NetworkMessage::to_bytes`) -/

/-- Serialization of a whole message (`NetworkMessage::to_bytes`): magic,
version, type code, big-endian payload length (`payload_bytes.len() as u32`),
big-endian sequence, big-endian CRC32 of the payload, then the payload. -/
def NetworkMessage.to_bytes (m : NetworkMessage) : List Nat :=
  let payload_bytes := m.payload.to_bytes
  PROTOCOL_MAGIC
    ++ [PROTOCOL_VERSION]
    ++ [m.msg_type.code]
    ++ be32 payload_bytes.length
    ++ be64 m.sequence
    ++ be32 (crc32 payload_bytes)
    ++ payload_bytes

/-! ## Payload deserialization (`MessagePayload::from_bytes`) -/

/-- Semantics of `Uuid::from_bytes_le` on a 16-byte wire slice, expressed in
the canonical (`Uuid::as_bytes`) representation: the uuid crate byte-reverses
the first 4-byte group and the following two 2-byte groups. -/
def uuidFromBytesLE (b : List Nat) : List Nat :=
  [b.getD 3 0, b.getD 2 0, b.getD 1 0, b.getD 0 0,
   b.getD 5 0, b.getD 4 0,
   b.getD 7 0, b.getD 6 0,
   b.getD 8 0, b.getD 9 0, b.getD 10 0, b.getD 11 0,
   b.getD 12 0, b.getD 13 0, b.getD 14 0, b.getD 15 0]

/-- The layers loop of the `Handshake` arm of `MessagePayload::from_bytes`:
reads the given count of big-endian `u16` values starting at `offset`,
checking `bytes.len() < offset + 2` before each read. Returns the layer
list and the offset after the loop. -/
def readLayersLoop (bytes : List Nat) (offset : Nat) :
    Nat → PResult (List Nat × Nat)
  | 0 => .ok ([], offset)
  | n + 1 =>
      if bytes.length < offset + 2 then .err .InvalidPayload
      else
        match readLayersLoop bytes (offset + 2) n with
        | .ok (ls, off) =>
            .ok (readBE [bytes.getD offset 0, bytes.getD (offset + 1) 0] :: ls,
                 off)
        | r => r

/-- The float-vector loops of `MessagePayload::from_bytes`: reads `n`
big-endian 32-bit patterns starting at `start`; the Rust loop indexes
`bytes[start..start+4]` whose bounds were established by the preceding
exact-length check, so no bounds check appears inside the loop. -/
def readWords (bytes : List Nat) (start : Nat) : Nat → List Nat
  | 0 => []
  | n + 1 =>
      readBE [bytes.getD start 0, bytes.getD (start + 1) 0,
              bytes.getD (start + 2) 0, bytes.getD (start + 3) 0]
        :: readWords bytes (start + 4) n

/-- Deserialization of a payload (`MessagePayload::from_bytes`). The
`Handshake` arm reads the one-byte name length at `bytes[16]` and the
one-byte layer count at `bytes[17 + name_len]` without a preceding bounds
check, so a payload ending exactly there aborts with an index panic,
modelled by `PResult.oob`. `WeightSync`, `Disconnect` and `Error` payloads
fall into the catch-all arm (`UnsupportedMessageType`). -/
def MessagePayload.from_bytes (msg_type : MessageType) (bytes : List Nat) :
    PResult MessagePayload :=
  match msg_type with
  | .Handshake =>
      if bytes.length < 16 then .err .InvalidPayload
      else
        let network_id := uuidFromBytesLE (bytes.take 16)
        if bytes.length ≤ 16 then .oob
        else
          let name_len := bytes.getD 16 0
          if bytes.length < 17 + name_len then .err .InvalidPayload
          else
            let name := (bytes.drop 17).take name_len
            if bytes.length ≤ 17 + name_len then .oob
            else
              let layers_count := bytes.getD (17 + name_len) 0
              match readLayersLoop bytes (18 + name_len) layers_count with
              | .ok (layers, offset) =>
                  if bytes.length < offset + 4 then .err .InvalidPayload
                  else
                    let capabilities :=
                      readBE [bytes.getD offset 0, bytes.getD (offset + 1) 0,
                              bytes.getD (offset + 2) 0,
                              bytes.getD (offset + 3) 0]
                    .ok (.Handshake network_id name layers capabilities)
              | .err e => .err e
              | .oob => .oob
  | .ForwardData =>
      if bytes.length < 5 then .err .InvalidPayload
      else
        let layer_id := bytes.getD 0 0
        let data_len := readBE [bytes.getD 1 0, bytes.getD 2 0,
                                bytes.getD 3 0, bytes.getD 4 0]
        if bytes.length ≠ 5 + data_len * 4 then .err .InvalidPayload
        else .ok (.ForwardData layer_id (readWords bytes 5 data_len))
  | .HandshakeAck =>
      if bytes.length ≠ 17 then .err .InvalidPayload
      else
        .ok (.HandshakeAck (uuidFromBytesLE (bytes.take 16))
              (bytes.getD 16 0 ≠ 0))
  | .Heartbeat =>
      if bytes.length ≠ 8 then .err .InvalidPayload
      else
        .ok (.Heartbeat (readBE [bytes.getD 0 0, bytes.getD 1 0,
                                 bytes.getD 2 0, bytes.getD 3 0,
                                 bytes.getD 4 0, bytes.getD 5 0,
                                 bytes.getD 6 0, bytes.getD 7 0]))
  | .BackwardData =>
      if bytes.length < 5 then .err .InvalidPayload
      else
        let layer_id := bytes.getD 0 0
        let data_len := readBE [bytes.getD 1 0, bytes.getD 2 0,
                                bytes.getD 3 0, bytes.getD 4 0]
        if bytes.length ≠ 5 + data_len * 4 then .err .InvalidPayload
        else .ok (.BackwardData layer_id (readWords bytes 5 data_len))
  | .HebbianData =>
      if bytes.length < 9 then .err .InvalidPayload
      else
        let layer_id := bytes.getD 0 0
        let learning_rate := readBE [bytes.getD 1 0, bytes.getD 2 0,
                                     bytes.getD 3 0, bytes.getD 4 0]
        let data_len := readBE [bytes.getD 5 0, bytes.getD 6 0,
                                bytes.getD 7 0, bytes.getD 8 0]
        if bytes.length ≠ 9 + data_len * 4 then .err .InvalidPayload
        else .ok (.HebbianData layer_id (readWords bytes 9 data_len)
                    learning_rate)
  | _ => .err .UnsupportedMessageType

/-! ## Message deserialization (`NetworkMessage::from_bytes`) -/

/-- Deserialization of a whole message (`NetworkMessage::from_bytes`):
validates, in order, buffer length against the header size, the magic
bytes, the version byte, the declared payload length against the actual
remaining bytes, and the CRC32 of the payload against the header checksum,
then dispatches payload decoding on the message-type byte. -/
def NetworkMessage.from_bytes (bytes : List Nat) : PResult NetworkMessage :=
  if bytes.length < HEADER_SIZE then .err .InvalidLength
  else if bytes.take 4 ≠ PROTOCOL_MAGIC then .err .InvalidMagic
  else if bytes.getD 4 0 ≠ PROTOCOL_VERSION then .err .UnsupportedVersion
  else
    let msg_type := MessageType.ofByte (bytes.getD 5 0)
    let payload_len := readBE ((bytes.drop 6).take 4)
    let sequence := readBE ((bytes.drop 10).take 8)
    let expected_checksum := readBE ((bytes.drop 18).take 4)
    if bytes.length ≠ HEADER_SIZE + payload_len then .err .InvalidLength
    else
      let payload_bytes := bytes.drop HEADER_SIZE
      if crc32 payload_bytes ≠ expected_checksum then .err .ChecksumMismatch
      else
        match MessagePayload.from_bytes msg_type payload_bytes with
        | .ok payload => .ok ⟨msg_type, sequence, payload⟩
        | .err e => .err e
        | .oob => .oob

/-! ## Arithmetic facts about the byte encodings -/

/-- Reading back a big-endian 2-byte encoding recovers the value modulo 2^16. -/
theorem readBE_be16 (n : Nat) : readBE (be16 n) = n % 2^16 := by
  simp only [be16, readBE, List.foldl_cons, List.foldl_nil]
  omega

/-- Reading back a big-endian 4-byte encoding recovers the value modulo 2^32. -/
theorem readBE_be32 (n : Nat) : readBE (be32 n) = n % 2^32 := by
  simp only [be32, readBE, List.foldl_cons, List.foldl_nil]
  omega

/-- Reading back a big-endian 8-byte encoding recovers the value modulo 2^64. -/
theorem readBE_be64 (n : Nat) : readBE (be64 n) = n % 2^64 := by
  simp only [be64, readBE, List.foldl_cons, List.foldl_nil]
  omega

/-- Every byte of a 2-byte big-endian encoding is below 256. -/
theorem mem_be16_lt (n b : Nat) (h : b ∈ be16 n) : b < 256 := by
  simp only [be16, List.mem_cons, List.not_mem_nil, or_false] at h
  rcases h with h | h <;> omega

/-- Every byte of a 4-byte big-endian encoding is below 256. -/
theorem mem_be32_lt (n b : Nat) (h : b ∈ be32 n) : b < 256 := by
  simp only [be32, List.mem_cons, List.not_mem_nil, or_false] at h
  rcases h with h | h | h | h <;> omega

/-- Every byte of an 8-byte big-endian encoding is below 256. -/
theorem mem_be64_lt (n b : Nat) (h : b ∈ be64 n) : b < 256 := by
  simp only [be64, List.mem_cons, List.not_mem_nil, or_false] at h
  rcases h with h | h | h | h | h | h | h | h <;> omega

/-! ## Small list toolkit -/

/-- Dropping then indexing equals indexing at the shifted position. -/
theorem getD_drop (l : List Nat) (n i d : Nat) :
    (l.drop n).getD i d = l.getD (n + i) d := by
  simp [List.getD_eq_getElem?_getD, List.getElem?_drop]

/-- Dropping the length of a left append factor plus `k` drops into the
right factor. -/
theorem drop_append_add (l r : List Nat) (k : Nat) :
    (l ++ r).drop (l.length + k) = r.drop k := by
  induction l with
  | nil => simp
  | cons a l ih => simp [Nat.succ_add, ih]

/-- Setting an element at an index past a left append factor sets it in the
right factor. -/
theorem set_append_add (l r : List Nat) (j v : Nat) :
    (l ++ r).set (l.length + j) v = l ++ r.set j v := by
  induction l with
  | nil => simp
  | cons a l ih => simp [Nat.succ_add, ih]

/-! ## CRC-32 algebraic facts -/

/-- Triple-xor cancellation helper. -/
theorem xor_cancel_mid (a b p : Nat) : (a ^^^ p) ^^^ (b ^^^ p) = a ^^^ b := by
  rw [Nat.xor_comm b p, ← Nat.xor_assoc, Nat.xor_assoc a p p, Nat.xor_self,
    Nat.xor_zero]

/-- Right shift by one distributes over xor. -/
theorem shiftRight_one_xor (x y : Nat) :
    (x ^^^ y) >>> 1 = x >>> 1 ^^^ y >>> 1 := by
  apply Nat.eq_of_testBit_eq
  intro i
  simp [Nat.testBit_shiftRight, Nat.testBit_xor]

/-- A CRC-32 bit step keeps the state inside 32 bits. -/
theorem crcBit_lt (c : Nat) (h : c < 2^32) : crcBit c < 2^32 := by
  unfold crcBit
  split
  · exact Nat.xor_lt_two_pow
      (by rw [Nat.shiftRight_eq_div_pow]; omega) (by decide)
  · rw [Nat.shiftRight_eq_div_pow]; omega

/-- A CRC-32 bit step is linear over xor. -/
theorem crcBit_xor (x y : Nat) : crcBit (x ^^^ y) = crcBit x ^^^ crcBit y := by
  have hm0 : (x ^^^ y) &&& 1 = (x &&& 1) ^^^ (y &&& 1) :=
    Nat.and_xor_distrib_right
  simp only [Nat.and_one_is_mod] at hm0
  rcases Nat.mod_two_eq_zero_or_one x with hx | hx <;>
    rcases Nat.mod_two_eq_zero_or_one y with hy | hy <;>
      simp only [crcBit, Nat.and_one_is_mod, hm0, hx, hy] <;> norm_num
  · exact shiftRight_one_xor x y
  · rw [shiftRight_one_xor, Nat.xor_assoc]
  · rw [shiftRight_one_xor, Nat.xor_assoc, Nat.xor_comm (y >>> 1) crcPOLY,
      ← Nat.xor_assoc]
  · rw [shiftRight_one_xor, xor_cancel_mid]

/-- Iterated CRC-32 bit steps keep the state inside 32 bits. -/
theorem crcSteps_lt (n c : Nat) (h : c < 2^32) : crcSteps n c < 2^32 := by
  induction n generalizing c with
  | zero => exact h
  | succ n ih => exact ih _ (crcBit_lt c h)

/-- Iterated CRC-32 bit steps are linear over xor. -/
theorem crcSteps_xor (n x y : Nat) :
    crcSteps n (x ^^^ y) = crcSteps n x ^^^ crcSteps n y := by
  induction n generalizing x y with
  | zero => rfl
  | succ n ih => simp only [crcSteps, crcBit_xor, ih]

/-- A CRC-32 bit step never maps a nonzero 32-bit state to zero (the
polynomial has its top bit set, so the xor branch cannot produce zero). -/
theorem crcBit_ne_zero (c : Nat) (hlt : c < 2^32) (h0 : c ≠ 0) :
    crcBit c ≠ 0 := by
  unfold crcBit
  split
  · intro h
    have heq : c >>> 1 = crcPOLY := Nat.xor_eq_zero.mp h
    rw [Nat.shiftRight_eq_div_pow] at heq
    unfold crcPOLY at heq
    omega
  · next hcond =>
    rw [Nat.shiftRight_eq_div_pow]
    rw [Nat.and_one_is_mod] at hcond
    intro h
    rcases Nat.mod_two_eq_zero_or_one c with hm | hm
    · omega
    · exact hcond hm

/-- Iterated CRC-32 bit steps never map a nonzero 32-bit state to zero. -/
theorem crcSteps_ne_zero (n c : Nat) (hlt : c < 2^32) (h0 : c ≠ 0) :
    crcSteps n c ≠ 0 := by
  induction n generalizing c with
  | zero => exact h0
  | succ n ih => exact ih _ (crcBit_lt c hlt) (crcBit_ne_zero c hlt h0)

/-- Feeding a byte keeps the CRC-32 state inside 32 bits. -/
theorem crcByte_lt (c b : Nat) (hc : c < 2^32) (hb : b < 2^32) :
    crcByte c b < 2^32 :=
  crcSteps_lt 8 _ (Nat.xor_lt_two_pow hc hb)

/-- The xor of two one-byte CRC-32 updates only depends on the xor of the
inputs. -/
theorem crcByte_xor_crcByte (c1 c2 b1 b2 : Nat) :
    crcByte c1 b1 ^^^ crcByte c2 b2 = crcSteps 8 ((c1 ^^^ b1) ^^^ (c2 ^^^ b2)) := by
  unfold crcByte
  rw [← crcSteps_xor]

/-- Distinct 32-bit states fed the same byte stay distinct. -/
theorem crcByte_ne_state (c1 c2 b : Nat) (h1 : c1 < 2^32) (h2 : c2 < 2^32)
    (hne : c1 ≠ c2) : crcByte c1 b ≠ crcByte c2 b := by
  intro h
  have h0 : crcSteps 8 (c1 ^^^ c2) = 0 := by
    rw [← xor_cancel_mid c1 c2 b, ← crcByte_xor_crcByte, h, Nat.xor_self]
  exact crcSteps_ne_zero 8 _ (Nat.xor_lt_two_pow h1 h2)
    (fun hz => hne (Nat.xor_eq_zero.mp hz)) h0

/-- One 32-bit state fed distinct bytes produces distinct states. -/
theorem crcByte_ne_byte (s b1 b2 : Nat) (hb1 : b1 < 2^32) (hb2 : b2 < 2^32)
    (hne : b1 ≠ b2) : crcByte s b1 ≠ crcByte s b2 := by
  intro h
  have hmid : (s ^^^ b1) ^^^ (s ^^^ b2) = b1 ^^^ b2 := by
    rw [Nat.xor_comm s b1, Nat.xor_comm s b2, xor_cancel_mid]
  have h0 : crcSteps 8 (b1 ^^^ b2) = 0 := by
    rw [← hmid, ← crcByte_xor_crcByte, h, Nat.xor_self]
  exact crcSteps_ne_zero 8 _ (Nat.xor_lt_two_pow hb1 hb2)
    (fun hz => hne (Nat.xor_eq_zero.mp hz)) h0

/-- Folding bytes keeps the CRC-32 state inside 32 bits. -/
theorem foldl_crcByte_lt (l : List Nat) (c : Nat) (hc : c < 2^32)
    (hl : ∀ b ∈ l, b < 256) : l.foldl crcByte c < 2^32 := by
  induction l generalizing c with
  | nil => exact hc
  | cons b l ih =>
      simp only [List.foldl_cons]
      exact ih _ (crcByte_lt c b hc (by
          have := hl b (List.mem_cons_self b l); omega))
        (fun b' hb' => hl b' (List.mem_cons_of_mem _ hb'))

/-- Folding the same bytes from distinct 32-bit states ends in distinct
states. -/
theorem foldl_crcByte_ne (l : List Nat) (c1 c2 : Nat) (h1 : c1 < 2^32)
    (h2 : c2 < 2^32) (hl : ∀ b ∈ l, b < 256) (hne : c1 ≠ c2) :
    l.foldl crcByte c1 ≠ l.foldl crcByte c2 := by
  induction l generalizing c1 c2 with
  | nil => exact hne
  | cons b l ih =>
      simp only [List.foldl_cons]
      have hb : b < 256 := hl b (List.mem_cons_self b l)
      exact ih _ _ (crcByte_lt c1 b h1 (by omega)) (crcByte_lt c2 b h2 (by omega))
        (fun b' hb' => hl b' (List.mem_cons_of_mem _ hb'))
        (crcByte_ne_state c1 c2 b h1 h2 hne)

/-- CRC-32 separates any two byte lists that differ in exactly one byte. -/
theorem crc32_ne_of_single_byte (pre suf : List Nat) (b1 b2 : Nat)
    (hpre : ∀ b ∈ pre, b < 256) (hsuf : ∀ b ∈ suf, b < 256)
    (hb1 : b1 < 2^32) (hb2 : b2 < 2^32) (hne : b1 ≠ b2) :
    crc32 (pre ++ b1 :: suf) ≠ crc32 (pre ++ b2 :: suf) := by
  unfold crc32
  intro h
  have h' : (pre ++ b1 :: suf).foldl crcByte 0xFFFFFFFF
      = (pre ++ b2 :: suf).foldl crcByte 0xFFFFFFFF := by
    have h2' := congrArg (fun z => z ^^^ 0xFFFFFFFF) h
    simpa [Nat.xor_assoc, Nat.xor_self, Nat.xor_zero] using h2'
  rw [List.foldl_append, List.foldl_append, List.foldl_cons, List.foldl_cons]
    at h'
  have hs : pre.foldl crcByte 0xFFFFFFFF < 2^32 :=
    foldl_crcByte_lt pre _ (by norm_num) hpre
  exact foldl_crcByte_ne suf _ _
    (crcByte_lt _ b1 hs hb1) (crcByte_lt _ b2 hs hb2) hsuf
    (crcByte_ne_byte _ b1 b2 hb1 hb2 hne) h'

/-- CRC-32 of a list of bytes below 256 is a 32-bit value. -/
theorem crc32_lt (l : List Nat) (hl : ∀ b ∈ l, b < 256) : crc32 l < 2^32 :=
  Nat.xor_lt_two_pow (foldl_crcByte_lt l _ (by norm_num) hl) (by norm_num)

/-! ## Well-formedness: every field fits its Rust machine type -/

/-- Well-formedness of a payload, mirroring the Rust field types: node
identifiers are 16 bytes, strings are byte lists, `u8`/`u16`/`u32`/`u64`
fields are bounded accordingly, float patterns are 32-bit. -/
abbrev WfPayload : MessagePayload → Prop
  | .Handshake network_id name layers capabilities =>
      network_id.length = 16 ∧ (∀ b ∈ network_id, b < 256)
        ∧ (∀ b ∈ name, b < 256) ∧ (∀ l ∈ layers, l < 2^16)
        ∧ capabilities < 2^32
  | .HandshakeAck network_id _ =>
      network_id.length = 16 ∧ ∀ b ∈ network_id, b < 256
  | .ForwardData layer_id data => layer_id < 256 ∧ ∀ x ∈ data, x < 2^32
  | .BackwardData layer_id gradients =>
      layer_id < 256 ∧ ∀ x ∈ gradients, x < 2^32
  | .HebbianData layer_id correlations learning_rate =>
      layer_id < 256 ∧ (∀ x ∈ correlations, x < 2^32) ∧ learning_rate < 2^32
  | .WeightSync layer_id weights biases =>
      layer_id < 256 ∧ (∀ x ∈ weights, x < 2^32) ∧ (∀ x ∈ biases, x < 2^32)
  | .Heartbeat timestamp => timestamp < 2^64
  | .Disconnect reason => ∀ b ∈ reason, b < 256
  | .Error code message => code < 2^16 ∧ ∀ b ∈ message, b < 256

/-- Well-formedness of a message: 64-bit sequence and well-formed payload. -/
abbrev WfMessage (m : NetworkMessage) : Prop :=
  m.sequence < 2^64 ∧ WfPayload m.payload

/-- Every byte of a serialized well-formed payload is below 256. -/
theorem payload_to_bytes_lt (p : MessagePayload) (h : WfPayload p) :
    ∀ b ∈ p.to_bytes, b < 256 := by
  intro b hb
  cases p with
  | Handshake network_id name layers capabilities =>
      obtain ⟨hlen, hid, hname, hlay, hcap⟩ := h
      simp only [MessagePayload.to_bytes, List.append_assoc, List.mem_append,
        List.mem_cons, List.not_mem_nil, or_false, List.mem_flatten,
        List.mem_map] at hb
      rcases hb with hb | hb | hb | hb | ⟨s, ⟨l, hl, rfl⟩, hbs⟩ | hb
      · exact hid b hb
      · omega
      · exact hname b hb
      · omega
      · exact mem_be16_lt l b hbs
      · exact mem_be32_lt _ b hb
  | HandshakeAck network_id accepted =>
      obtain ⟨hlen, hid⟩ := h
      simp only [MessagePayload.to_bytes, List.mem_append, List.mem_cons,
        List.not_mem_nil, or_false] at hb
      rcases hb with hb | hb
      · exact hid b hb
      · cases accepted <;> simp at hb <;> omega
  | ForwardData layer_id data =>
      obtain ⟨hlid, hdata⟩ := h
      simp only [MessagePayload.to_bytes, List.append_assoc, List.cons_append,
        List.nil_append, List.mem_cons, List.mem_append, List.mem_flatten,
        List.mem_map] at hb
      rcases hb with rfl | hb | ⟨s, ⟨x, hx, rfl⟩, hbs⟩
      · exact hlid
      · exact mem_be32_lt _ b hb
      · exact mem_be32_lt x b hbs
  | BackwardData layer_id gradients =>
      obtain ⟨hlid, hdata⟩ := h
      simp only [MessagePayload.to_bytes, List.append_assoc, List.cons_append,
        List.nil_append, List.mem_cons, List.mem_append, List.mem_flatten,
        List.mem_map] at hb
      rcases hb with rfl | hb | ⟨s, ⟨x, hx, rfl⟩, hbs⟩
      · exact hlid
      · exact mem_be32_lt _ b hb
      · exact mem_be32_lt x b hbs
  | HebbianData layer_id correlations learning_rate =>
      obtain ⟨hlid, hdata, hrate⟩ := h
      simp only [MessagePayload.to_bytes, List.append_assoc, List.cons_append,
        List.nil_append, List.mem_cons, List.mem_append, List.mem_flatten,
        List.mem_map] at hb
      rcases hb with rfl | hb | hb | ⟨s, ⟨x, hx, rfl⟩, hbs⟩
      · exact hlid
      · exact mem_be32_lt _ b hb
      · exact mem_be32_lt _ b hb
      · exact mem_be32_lt x b hbs
  | WeightSync layer_id weights biases =>
      obtain ⟨hlid, hw, hbias⟩ := h
      simp only [MessagePayload.to_bytes, List.append_assoc, List.cons_append,
        List.nil_append, List.mem_cons, List.mem_append, List.mem_flatten,
        List.mem_map] at hb
      rcases hb with rfl | hb | ⟨s, ⟨x, hx, rfl⟩, hbs⟩ | hb | ⟨s, ⟨x, hx, rfl⟩, hbs⟩
      · exact hlid
      · exact mem_be32_lt _ b hb
      · exact mem_be32_lt x b hbs
      · exact mem_be32_lt _ b hb
      · exact mem_be32_lt x b hbs
  | Heartbeat timestamp =>
      exact mem_be64_lt timestamp b hb
  | Disconnect reason =>
      simp only [MessagePayload.to_bytes, List.cons_append, List.nil_append,
        List.mem_cons] at hb
      rcases hb with rfl | hb
      · omega
      · exact h b hb
  | Error code message =>
      obtain ⟨hcode, hmsg⟩ := h
      simp only [MessagePayload.to_bytes, List.append_assoc, List.mem_append,
        List.mem_cons, List.not_mem_nil, or_false] at hb
      rcases hb with hb | hb | hb
      · exact mem_be16_lt code b hb
      · omega
      · exact hmsg b hb

/-! ## Decoding an encoded message: header phase -/

/-- The type byte written by encode maps back to the same `MessageType`. -/
theorem MessageType.ofByte_code (t : MessageType) :
    MessageType.ofByte t.code = t := by
  cases t <;> rfl

/-- The type code of every message type is one byte. -/
theorem MessageType.code_lt (t : MessageType) : t.code < 256 := by
  cases t <;> simp [MessageType.code]

/-- Length of an encoded message: header size plus payload size. -/
theorem to_bytes_length (m : NetworkMessage) :
    m.to_bytes.length = 22 + m.payload.to_bytes.length := by
  simp only [NetworkMessage.to_bytes, PROTOCOL_MAGIC, be32, be64,
    List.append_assoc, List.length_append, List.length_cons, List.length_nil]
  omega

/-- Decoding an encoded well-formed message passes every header check and
reduces to decoding the payload with the encoded message type and sequence. -/
theorem from_bytes_to_bytes (m : NetworkMessage) (hwf : WfMessage m)
    (hlen : m.payload.to_bytes.length < 2^32) :
    NetworkMessage.from_bytes m.to_bytes
      = match MessagePayload.from_bytes m.msg_type m.payload.to_bytes with
        | .ok payload => .ok ⟨m.msg_type, m.sequence, payload⟩
        | .err e => .err e
        | .oob => .oob := by
  have h4 : m.to_bytes.take 4 = PROTOCOL_MAGIC := rfl
  have hv : m.to_bytes.getD 4 0 = PROTOCOL_VERSION := rfl
  have ht : m.to_bytes.getD 5 0 = m.msg_type.code := rfl
  have hL : (m.to_bytes.drop 6).take 4 = be32 m.payload.to_bytes.length := rfl
  have hS : (m.to_bytes.drop 10).take 8 = be64 m.sequence := rfl
  have hC : (m.to_bytes.drop 18).take 4 = be32 (crc32 m.payload.to_bytes) := rfl
  have hP : m.to_bytes.drop 22 = m.payload.to_bytes := rfl
  have hlen22 := to_bytes_length m
  have hcrc : crc32 m.payload.to_bytes < 2^32 :=
    crc32_lt _ (payload_to_bytes_lt m.payload hwf.2)
  simp only [NetworkMessage.from_bytes, HEADER_SIZE, h4, hv, ht, hL, hS, hC,
    hP, hlen22, readBE_be32, readBE_be64, MessageType.ofByte_code]
  rw [if_neg (by omega), if_neg (by simp), if_neg (by simp [PROTOCOL_VERSION]),
    if_neg (by omega), if_neg (by omega)]
  rw [Nat.mod_eq_of_lt hwf.1]

/-! ## Decoding encoded payloads -/

/-- Reading back the words written as consecutive big-endian 32-bit values
recovers them. -/
theorem readWords_encode (vals : List Nat) (bytes post : List Nat)
    (start : Nat) (hv : ∀ v ∈ vals, v < 2^32)
    (hdrop : bytes.drop start = (vals.map be32).flatten ++ post) :
    readWords bytes start vals.length = vals := by
  induction vals generalizing start with
  | nil => rfl
  | cons v vs ih =>
      simp only [List.map_cons, List.flatten_cons, be32, List.cons_append,
        List.append_assoc] at hdrop
      have hv0 : v < 2^32 := hv v (List.mem_cons_self v vs)
      have h0 : bytes.getD start 0 = v / 2^24 % 256 := by
        have h := getD_drop bytes start 0 0
        rw [hdrop] at h
        simpa using h.symm
      have h1 : bytes.getD (start + 1) 0 = v / 2^16 % 256 := by
        have h := getD_drop bytes start 1 0
        rw [hdrop] at h
        exact h.symm
      have h2 : bytes.getD (start + 2) 0 = v / 2^8 % 256 := by
        have h := getD_drop bytes start 2 0
        rw [hdrop] at h
        exact h.symm
      have h3 : bytes.getD (start + 3) 0 = v % 256 := by
        have h := getD_drop bytes start 3 0
        rw [hdrop] at h
        exact h.symm
      have h' : (bytes.drop start).drop 4 = (vs.map be32).flatten ++ post := by
        rw [hdrop]; rfl
      have hdrop4 : bytes.drop (start + 4) = (vs.map be32).flatten ++ post := by
        rw [List.drop_drop] at h'
        exact h'
      simp only [List.length_cons, readWords, h0, h1, h2, h3]
      rw [ih (start + 4) (fun x hx => hv x (List.mem_cons_of_mem _ hx)) hdrop4]
      have : readBE [v / 2^24 % 256, v / 2^16 % 256, v / 2^8 % 256, v % 256]
          = v := by
        simp only [readBE, List.foldl_cons, List.foldl_nil]
        omega
      rw [this]

/-- Length of the flattened 32-bit encodings. -/
theorem flatten_map_be32_length (l : List Nat) :
    ((l.map be32).flatten).length = 4 * l.length := by
  induction l with
  | nil => rfl
  | cons v vs ih =>
      simp only [List.map_cons, List.flatten_cons, List.length_append, ih,
        be32, List.length_cons, List.length_nil]
      omega

/-- Length of the flattened 16-bit encodings. -/
theorem flatten_map_be16_length (l : List Nat) :
    ((l.map be16).flatten).length = 2 * l.length := by
  induction l with
  | nil => rfl
  | cons v vs ih =>
      simp only [List.map_cons, List.flatten_cons, List.length_append, ih,
        be16, List.length_cons, List.length_nil]
      omega

/-- Decoding an encoded `ForwardData` payload recovers it exactly. -/
theorem payload_from_bytes_forward (layer_id : Nat) (data : List Nat)
    (hdata : ∀ x ∈ data, x < 2^32) (hn : data.length < 2^30) :
    MessagePayload.from_bytes .ForwardData
      (MessagePayload.to_bytes (.ForwardData layer_id data))
      = .ok (.ForwardData layer_id data) := by
  have hlen : (MessagePayload.to_bytes (.ForwardData layer_id data)).length
      = 5 + data.length * 4 := by
    simp only [MessagePayload.to_bytes, List.length_append, List.length_cons,
      List.length_nil, be32, flatten_map_be32_length]
    omega
  have h0 : (MessagePayload.to_bytes (.ForwardData layer_id data)).getD 0 0
      = layer_id := rfl
  have h1 : (MessagePayload.to_bytes (.ForwardData layer_id data)).getD 1 0
      = data.length / 2^24 % 256 := rfl
  have h2 : (MessagePayload.to_bytes (.ForwardData layer_id data)).getD 2 0
      = data.length / 2^16 % 256 := rfl
  have h3 : (MessagePayload.to_bytes (.ForwardData layer_id data)).getD 3 0
      = data.length / 2^8 % 256 := rfl
  have h4 : (MessagePayload.to_bytes (.ForwardData layer_id data)).getD 4 0
      = data.length % 256 := rfl
  have hwords : readWords
      (MessagePayload.to_bytes (.ForwardData layer_id data)) 5 data.length
      = data :=
    readWords_encode data _ [] 5 hdata (by rw [List.append_nil]; rfl)
  have hread : readBE [data.length / 2^24 % 256, data.length / 2^16 % 256,
      data.length / 2^8 % 256, data.length % 256] = data.length := by
    simp only [readBE, List.foldl_cons, List.foldl_nil]
    omega
  simp only [MessagePayload.from_bytes, hlen, h0, h1, h2, h3, h4, hread]
  rw [if_neg (by omega), if_neg (by omega), hwords]

/-- Decoding an encoded `BackwardData` payload recovers it exactly. -/
theorem payload_from_bytes_backward (layer_id : Nat) (gradients : List Nat)
    (hdata : ∀ x ∈ gradients, x < 2^32) (hn : gradients.length < 2^30) :
    MessagePayload.from_bytes .BackwardData
      (MessagePayload.to_bytes (.BackwardData layer_id gradients))
      = .ok (.BackwardData layer_id gradients) := by
  have hlen : (MessagePayload.to_bytes
      (.BackwardData layer_id gradients)).length
      = 5 + gradients.length * 4 := by
    simp only [MessagePayload.to_bytes, List.length_append, List.length_cons,
      List.length_nil, be32, flatten_map_be32_length]
    omega
  have h0 : (MessagePayload.to_bytes (.BackwardData layer_id gradients)).getD
      0 0 = layer_id := rfl
  have h1 : (MessagePayload.to_bytes (.BackwardData layer_id gradients)).getD
      1 0 = gradients.length / 2^24 % 256 := rfl
  have h2 : (MessagePayload.to_bytes (.BackwardData layer_id gradients)).getD
      2 0 = gradients.length / 2^16 % 256 := rfl
  have h3 : (MessagePayload.to_bytes (.BackwardData layer_id gradients)).getD
      3 0 = gradients.length / 2^8 % 256 := rfl
  have h4 : (MessagePayload.to_bytes (.BackwardData layer_id gradients)).getD
      4 0 = gradients.length % 256 := rfl
  have hwords : readWords
      (MessagePayload.to_bytes (.BackwardData layer_id gradients)) 5
      gradients.length = gradients :=
    readWords_encode gradients _ [] 5 hdata (by rw [List.append_nil]; rfl)
  have hread : readBE [gradients.length / 2^24 % 256,
      gradients.length / 2^16 % 256, gradients.length / 2^8 % 256,
      gradients.length % 256] = gradients.length := by
    simp only [readBE, List.foldl_cons, List.foldl_nil]
    omega
  simp only [MessagePayload.from_bytes, hlen, h0, h1, h2, h3, h4, hread]
  rw [if_neg (by omega), if_neg (by omega), hwords]

/-- Decoding an encoded `HebbianData` payload recovers it exactly. -/
theorem payload_from_bytes_hebbian (layer_id : Nat) (correlations : List Nat)
    (learning_rate : Nat) (hdata : ∀ x ∈ correlations, x < 2^32)
    (hrate : learning_rate < 2^32) (hn : correlations.length < 2^30) :
    MessagePayload.from_bytes .HebbianData
      (MessagePayload.to_bytes
        (.HebbianData layer_id correlations learning_rate))
      = .ok (.HebbianData layer_id correlations learning_rate) := by
  have hlen : (MessagePayload.to_bytes
      (.HebbianData layer_id correlations learning_rate)).length
      = 9 + correlations.length * 4 := by
    simp only [MessagePayload.to_bytes, List.length_append, List.length_cons,
      List.length_nil, be32, flatten_map_be32_length]
    omega
  have h0 : (MessagePayload.to_bytes
      (.HebbianData layer_id correlations learning_rate)).getD 0 0
      = layer_id := rfl
  have h1 : (MessagePayload.to_bytes
      (.HebbianData layer_id correlations learning_rate)).getD 1 0
      = learning_rate / 2^24 % 256 := rfl
  have h2 : (MessagePayload.to_bytes
      (.HebbianData layer_id correlations learning_rate)).getD 2 0
      = learning_rate / 2^16 % 256 := rfl
  have h3 : (MessagePayload.to_bytes
      (.HebbianData layer_id correlations learning_rate)).getD 3 0
      = learning_rate / 2^8 % 256 := rfl
  have h4 : (MessagePayload.to_bytes
      (.HebbianData layer_id correlations learning_rate)).getD 4 0
      = learning_rate % 256 := rfl
  have h5 : (MessagePayload.to_bytes
      (.HebbianData layer_id correlations learning_rate)).getD 5 0
      = correlations.length / 2^24 % 256 := rfl
  have h6 : (MessagePayload.to_bytes
      (.HebbianData layer_id correlations learning_rate)).getD 6 0
      = correlations.length / 2^16 % 256 := rfl
  have h7 : (MessagePayload.to_bytes
      (.HebbianData layer_id correlations learning_rate)).getD 7 0
      = correlations.length / 2^8 % 256 := rfl
  have h8 : (MessagePayload.to_bytes
      (.HebbianData layer_id correlations learning_rate)).getD 8 0
      = correlations.length % 256 := rfl
  have hwords : readWords (MessagePayload.to_bytes
      (.HebbianData layer_id correlations learning_rate)) 9
      correlations.length = correlations :=
    readWords_encode correlations _ [] 9 hdata (by rw [List.append_nil]; rfl)
  have hreadRate : readBE [learning_rate / 2^24 % 256,
      learning_rate / 2^16 % 256, learning_rate / 2^8 % 256,
      learning_rate % 256] = learning_rate := by
    simp only [readBE, List.foldl_cons, List.foldl_nil]
    omega
  have hread : readBE [correlations.length / 2^24 % 256,
      correlations.length / 2^16 % 256, correlations.length / 2^8 % 256,
      correlations.length % 256] = correlations.length := by
    simp only [readBE, List.foldl_cons, List.foldl_nil]
    omega
  simp only [MessagePayload.from_bytes, hlen, h0, h1, h2, h3, h4, h5, h6, h7,
    h8, hreadRate, hread]
  rw [if_neg (by omega), if_neg (by omega), hwords]

/-- Decoding an encoded `Heartbeat` payload recovers it exactly. -/
theorem payload_from_bytes_heartbeat (timestamp : Nat)
    (hts : timestamp < 2^64) :
    MessagePayload.from_bytes .Heartbeat
      (MessagePayload.to_bytes (.Heartbeat timestamp))
      = .ok (.Heartbeat timestamp) := by
  have hlen : (MessagePayload.to_bytes (.Heartbeat timestamp)).length = 8 :=
    rfl
  have h0 : (MessagePayload.to_bytes (.Heartbeat timestamp)).getD 0 0
      = timestamp / 2^56 % 256 := rfl
  have h1 : (MessagePayload.to_bytes (.Heartbeat timestamp)).getD 1 0
      = timestamp / 2^48 % 256 := rfl
  have h2 : (MessagePayload.to_bytes (.Heartbeat timestamp)).getD 2 0
      = timestamp / 2^40 % 256 := rfl
  have h3 : (MessagePayload.to_bytes (.Heartbeat timestamp)).getD 3 0
      = timestamp / 2^32 % 256 := rfl
  have h4 : (MessagePayload.to_bytes (.Heartbeat timestamp)).getD 4 0
      = timestamp / 2^24 % 256 := rfl
  have h5 : (MessagePayload.to_bytes (.Heartbeat timestamp)).getD 5 0
      = timestamp / 2^16 % 256 := rfl
  have h6 : (MessagePayload.to_bytes (.Heartbeat timestamp)).getD 6 0
      = timestamp / 2^8 % 256 := rfl
  have h7 : (MessagePayload.to_bytes (.Heartbeat timestamp)).getD 7 0
      = timestamp % 256 := rfl
  have hread : readBE [timestamp / 2^56 % 256, timestamp / 2^48 % 256,
      timestamp / 2^40 % 256, timestamp / 2^32 % 256, timestamp / 2^24 % 256,
      timestamp / 2^16 % 256, timestamp / 2^8 % 256, timestamp % 256]
      = timestamp := by
    simp only [readBE, List.foldl_cons, List.foldl_nil]
    omega
  simp only [MessagePayload.from_bytes, hlen, h0, h1, h2, h3, h4, h5, h6, h7,
    hread]
  rw [if_neg (by omega)]

/-- Decoding an encoded `HandshakeAck` payload recovers the flag but passes
the node identifier through `Uuid::from_bytes_le`. -/
theorem payload_from_bytes_ack (network_id : List Nat) (accepted : Bool)
    (hid : network_id.length = 16) :
    MessagePayload.from_bytes .HandshakeAck
      (MessagePayload.to_bytes (.HandshakeAck network_id accepted))
      = .ok (.HandshakeAck (uuidFromBytesLE network_id) accepted) := by
  have hlen : (MessagePayload.to_bytes
      (.HandshakeAck network_id accepted)).length = 17 := by
    simp only [MessagePayload.to_bytes, List.length_append, List.length_cons,
      List.length_nil, hid]
  have htake : (MessagePayload.to_bytes
      (.HandshakeAck network_id accepted)).take 16 = network_id := by
    simp only [MessagePayload.to_bytes]
    exact List.take_left' hid
  have hflag : (MessagePayload.to_bytes
      (.HandshakeAck network_id accepted)).getD 16 0
      = if accepted then 1 else 0 := by
    simp only [MessagePayload.to_bytes]
    rw [List.getD_append_right _ _ _ _ (le_of_eq hid)]
    simp [hid]
  simp only [MessagePayload.from_bytes, hlen, htake, hflag]
  cases accepted <;> simp

/-- Reading back the layer list written as consecutive big-endian 16-bit
values recovers it, together with the offset after the loop. -/
theorem readLayersLoop_encode (layers : List Nat) (bytes post : List Nat)
    (offset : Nat) (hlay : ∀ l ∈ layers, l < 2^16)
    (hdrop : bytes.drop offset = (layers.map be16).flatten ++ post) :
    readLayersLoop bytes offset layers.length
      = .ok (layers, offset + 2 * layers.length) := by
  induction layers generalizing offset with
  | nil => simp [readLayersLoop]
  | cons l ls ih =>
      simp only [List.map_cons, List.flatten_cons, be16, List.cons_append,
        List.append_assoc] at hdrop
      have hl0 : l < 2^16 := hlay l (List.mem_cons_self l ls)
      have hdl := List.length_drop offset bytes
      rw [hdrop] at hdl
      simp only [List.length_cons] at hdl
      have hge : offset + 2 ≤ bytes.length := by omega
      have h0 : bytes.getD offset 0 = l / 2^8 % 256 := by
        have h := getD_drop bytes offset 0 0
        rw [hdrop] at h
        simpa using h.symm
      have h1 : bytes.getD (offset + 1) 0 = l % 256 := by
        have h := getD_drop bytes offset 1 0
        rw [hdrop] at h
        exact h.symm
      have h' : (bytes.drop offset).drop 2 = (ls.map be16).flatten ++ post := by
        rw [hdrop]; rfl
      have hdrop2 : bytes.drop (offset + 2) = (ls.map be16).flatten ++ post := by
        rw [List.drop_drop] at h'
        exact h'
      have hread : readBE [l / 2^8 % 256, l % 256] = l := by
        simp only [readBE, List.foldl_cons, List.foldl_nil]
        omega
      simp only [List.length_cons, readLayersLoop, h0, h1, hread]
      rw [if_neg (by omega)]
      rw [ih (offset + 2) (fun x hx => hlay x (List.mem_cons_of_mem _ hx))
        hdrop2]
      have harith : offset + 2 * (ls.length + 1) = offset + 2 + 2 * ls.length := by
        omega
      rw [harith]

/-- Decoding a handshake payload laid out in its encoded segment structure:
the name, layers and capabilities are recovered, the node identifier goes
through `Uuid::from_bytes_le`. -/
theorem handshake_decode_segments (idb nm lay : List Nat) (caps : Nat)
    (hid : idb.length = 16) (hn : nm.length ≤ 255) (hL : lay.length ≤ 255)
    (hlv : ∀ l ∈ lay, l < 2^16) (hc : caps < 2^32) :
    MessagePayload.from_bytes .Handshake
      (idb ++ ([nm.length % 256] ++ (nm ++ ([lay.length % 256]
        ++ ((lay.map be16).flatten ++ be32 caps)))))
      = .ok (.Handshake (uuidFromBytesLE idb) nm lay caps) := by
  set bs := idb ++ ([nm.length % 256] ++ (nm ++ ([lay.length % 256]
    ++ ((lay.map be16).flatten ++ be32 caps)))) with hbs
  have hlen : bs.length = 22 + nm.length + 2 * lay.length := by
    rw [hbs]
    simp only [List.length_append, List.length_cons, List.length_nil,
      flatten_map_be16_length, be32, hid]
    omega
  have htake16 : bs.take 16 = idb := by
    rw [hbs]
    exact List.take_left' hid
  have hg16 : bs.getD 16 0 = nm.length := by
    rw [hbs, List.getD_append_right _ _ _ _ (le_of_eq hid)]
    simp [hid]
    omega
  have hd17 : bs.drop 17 = nm ++ ([lay.length % 256]
      ++ ((lay.map be16).flatten ++ be32 caps)) := by
    rw [hbs, show (17 : Nat) = idb.length + 1 by omega, drop_append_add]
    rfl
  have htaken : (bs.drop 17).take nm.length = nm := by
    rw [hd17]
    exact List.take_left' rfl
  have hd17n : bs.drop (17 + nm.length) = [lay.length % 256]
      ++ ((lay.map be16).flatten ++ be32 caps) := by
    have h' : (bs.drop 17).drop nm.length = [lay.length % 256]
        ++ ((lay.map be16).flatten ++ be32 caps) := by
      rw [hd17]
      exact List.drop_left' rfl
    rw [List.drop_drop] at h'
    exact h'
  have hgLay : bs.getD (17 + nm.length) 0 = lay.length := by
    have h := getD_drop bs (17 + nm.length) 0 0
    rw [hd17n] at h
    simp only [Nat.add_zero] at h
    rw [← h]
    simp
    omega
  have hd18n : bs.drop (18 + nm.length) = (lay.map be16).flatten
      ++ be32 caps := by
    have h' : (bs.drop (17 + nm.length)).drop 1 = (lay.map be16).flatten
        ++ be32 caps := by
      rw [hd17n]; rfl
    rw [List.drop_drop] at h'
    rw [show 18 + nm.length = 17 + nm.length + 1 by omega]
    exact h'
  have hloop : readLayersLoop bs (18 + nm.length) lay.length
      = .ok (lay, 18 + nm.length + 2 * lay.length) :=
    readLayersLoop_encode lay bs (be32 caps) (18 + nm.length) hlv hd18n
  have hdCaps : bs.drop (18 + nm.length + 2 * lay.length) = be32 caps := by
    have h' : (bs.drop (18 + nm.length)).drop (2 * lay.length)
        = be32 caps := by
      rw [hd18n]
      exact List.drop_left' (flatten_map_be16_length lay)
    rw [List.drop_drop] at h'
    exact h'
  have hc0 : bs.getD (18 + nm.length + 2 * lay.length) 0
      = caps / 2^24 % 256 := by
    have h := getD_drop bs (18 + nm.length + 2 * lay.length) 0 0
    rw [hdCaps] at h
    simpa using h.symm
  have hc1 : bs.getD (18 + nm.length + 2 * lay.length + 1) 0
      = caps / 2^16 % 256 := by
    have h := getD_drop bs (18 + nm.length + 2 * lay.length) 1 0
    rw [hdCaps] at h
    exact h.symm
  have hc2 : bs.getD (18 + nm.length + 2 * lay.length + 2) 0
      = caps / 2^8 % 256 := by
    have h := getD_drop bs (18 + nm.length + 2 * lay.length) 2 0
    rw [hdCaps] at h
    exact h.symm
  have hc3 : bs.getD (18 + nm.length + 2 * lay.length + 3) 0
      = caps % 256 := by
    have h := getD_drop bs (18 + nm.length + 2 * lay.length) 3 0
    rw [hdCaps] at h
    exact h.symm
  have hcapsRead : readBE [caps / 2^24 % 256, caps / 2^16 % 256,
      caps / 2^8 % 256, caps % 256] = caps := by
    simp only [readBE, List.foldl_cons, List.foldl_nil]
    omega
  simp only [MessagePayload.from_bytes, htake16, hg16, hgLay, htaken, hloop,
    hc0, hc1, hc2, hc3, hcapsRead]
  rw [if_neg (by omega), if_neg (by omega), if_neg (by omega),
    if_neg (by omega), if_neg (by omega)]

/-- Decoding an encoded `Handshake` payload recovers the name, layers and
capabilities; the node identifier goes through `Uuid::from_bytes_le`. -/
theorem payload_from_bytes_handshake (network_id name layers : List Nat)
    (capabilities : Nat) (hid : network_id.length = 16)
    (hname : name.length ≤ 255) (hlay : layers.length ≤ 255)
    (hlayv : ∀ l ∈ layers, l < 2^16) (hcaps : capabilities < 2^32) :
    MessagePayload.from_bytes .Handshake
      (MessagePayload.to_bytes
        (.Handshake network_id name layers capabilities))
      = .ok (.Handshake (uuidFromBytesLE network_id) name layers
          capabilities) := by
  have hp : MessagePayload.to_bytes
      (.Handshake network_id name layers capabilities)
      = network_id ++ ([name.length % 256] ++ (name
        ++ ([layers.length % 256]
          ++ ((layers.map be16).flatten ++ be32 capabilities)))) := by
    simp only [MessagePayload.to_bytes, List.append_assoc]
  rw [hp]
  exact handshake_decode_segments network_id name layers capabilities hid
    hname hlay hlayv hcaps

/-! ## Round-trip characterization -/

/-- The message type that matches each payload variant (a `NetworkMessage`
assembled by the Rust code always pairs these up). -/
def MessagePayload.tag : MessagePayload → MessageType
  | .Handshake .. => .Handshake
  | .HandshakeAck .. => .HandshakeAck
  | .ForwardData .. => .ForwardData
  | .BackwardData .. => .BackwardData
  | .HebbianData .. => .HebbianData
  | .WeightSync .. => .WeightSync
  | .Heartbeat .. => .Heartbeat
  | .Disconnect .. => .Disconnect
  | .Error .. => .Error

/-- Size bounds under which an encoded payload fits the wire format: strings
and layer lists fit their one-byte length prefix, vectors fit the 32-bit
length field with four bytes per element. -/
abbrev SmallSizes : MessagePayload → Prop
  | .Handshake _ name layers _ => name.length ≤ 255 ∧ layers.length ≤ 255
  | .ForwardData _ data => data.length < 2^29
  | .BackwardData _ gradients => gradients.length < 2^29
  | .HebbianData _ correlations _ => correlations.length < 2^29
  | .WeightSync _ weights biases =>
      weights.length < 2^28 ∧ biases.length < 2^28
  | .Disconnect reason => reason.length ≤ 255
  | .Error _ message => message.length ≤ 255
  | _ => True

/-- Encoded payload length of a well-formed, size-bounded payload fits the
32-bit length field. -/
theorem payload_length_lt (p : MessagePayload) (hwf : WfPayload p)
    (hs : SmallSizes p) : p.to_bytes.length < 2^32 := by
  cases p with
  | Handshake network_id name layers capabilities =>
      obtain ⟨hid, -, -, -, -⟩ := hwf
      obtain ⟨hn, hL⟩ := hs
      simp only [MessagePayload.to_bytes, List.length_append,
        List.length_cons, List.length_nil, flatten_map_be16_length, be32, hid]
      omega
  | HandshakeAck network_id accepted =>
      obtain ⟨hid, -⟩ := hwf
      simp only [MessagePayload.to_bytes, List.length_append,
        List.length_cons, List.length_nil, hid]
      omega
  | ForwardData layer_id data =>
      simp only [MessagePayload.to_bytes, List.length_append,
        List.length_cons, List.length_nil, flatten_map_be32_length, be32]
      omega
  | BackwardData layer_id gradients =>
      simp only [MessagePayload.to_bytes, List.length_append,
        List.length_cons, List.length_nil, flatten_map_be32_length, be32]
      omega
  | HebbianData layer_id correlations learning_rate =>
      simp only [MessagePayload.to_bytes, List.length_append,
        List.length_cons, List.length_nil, flatten_map_be32_length, be32]
      omega
  | WeightSync layer_id weights biases =>
      obtain ⟨hw, hb⟩ := hs
      simp only [MessagePayload.to_bytes, List.length_append,
        List.length_cons, List.length_nil, flatten_map_be32_length, be32]
      omega
  | Heartbeat timestamp =>
      simp only [MessagePayload.to_bytes, be64, List.length_cons,
        List.length_nil]
      omega
  | Disconnect reason =>
      simp only [MessagePayload.to_bytes, List.length_append,
        List.length_cons, List.length_nil]
      omega
  | Error code message =>
      simp only [MessagePayload.to_bytes, be16, List.length_append,
        List.length_cons, List.length_nil]
      omega

/-- What decoding an encoded message actually returns: the four variants
with a complete decoder round-trip exactly, the two handshake variants
come back with a byte-swapped node identifier, and the three variants
without a decoder arm fail with `UnsupportedMessageType`. -/
def expectedRoundTrip (m : NetworkMessage) : PResult NetworkMessage :=
  match m.payload with
  | .Handshake network_id name layers capabilities =>
      .ok ⟨m.msg_type, m.sequence,
        .Handshake (uuidFromBytesLE network_id) name layers capabilities⟩
  | .HandshakeAck network_id accepted =>
      .ok ⟨m.msg_type, m.sequence,
        .HandshakeAck (uuidFromBytesLE network_id) accepted⟩
  | .WeightSync .. => .err .UnsupportedMessageType
  | .Disconnect .. => .err .UnsupportedMessageType
  | .Error .. => .err .UnsupportedMessageType
  | _ => .ok m

/-- Claim C1 (counterexample): decoding the encoding of a `Disconnect`
message does not return the message — the decoder has no `Disconnect` arm
and fails with `UnsupportedMessageType`, so `decode(encode(m)) == m` is
false at this concrete message. -/
theorem nnp_roundtrip_counterexample :
    NetworkMessage.from_bytes
      (NetworkMessage.to_bytes ⟨.Disconnect, 0, .Disconnect []⟩)
      = .err .UnsupportedMessageType := by decide

/-- Claim C1 (amended): for every well-formed message whose type tag matches
its payload variant and whose fields fit the wire format,
`decode(encode(m))` is: `m` itself for `ForwardData`, `BackwardData`,
`HebbianData` and `Heartbeat` (all field values bit-exact, including NaN and
-0.0 float patterns, which are carried as raw 32-bit patterns); `m` with the
16-byte node identifier replaced by its `Uuid::from_bytes_le` byte-swap for
`Handshake` and `HandshakeAck` (encode uses `Uuid::as_bytes`, decode uses
`Uuid::from_bytes_le`, so the identifier does not round-trip); and
`UnsupportedMessageType` for `WeightSync`, `Disconnect` and `Error`, whose
decoder arms do not exist. -/
theorem nnp_roundtrip_amended (m : NetworkMessage) (hwf : WfMessage m)
    (htag : m.msg_type = m.payload.tag) (hs : SmallSizes m.payload) :
    NetworkMessage.from_bytes m.to_bytes = expectedRoundTrip m := by
  obtain ⟨mt, seq, p⟩ := m
  obtain ⟨hseq, hp⟩ := hwf
  simp only at htag hseq hp hs ⊢
  subst htag
  rw [from_bytes_to_bytes ⟨p.tag, seq, p⟩ ⟨hseq, hp⟩ (payload_length_lt p hp hs)]
  cases p with
  | Handshake network_id name layers capabilities =>
      obtain ⟨hid, -, -, hlv, hcaps⟩ := hp
      obtain ⟨hn, hL⟩ := hs
      rw [show MessagePayload.tag (.Handshake network_id name layers
        capabilities) = .Handshake from rfl]
      rw [payload_from_bytes_handshake network_id name layers capabilities
        hid hn hL hlv hcaps]
      rfl
  | HandshakeAck network_id accepted =>
      obtain ⟨hid, -⟩ := hp
      rw [show MessagePayload.tag (.HandshakeAck network_id accepted)
        = .HandshakeAck from rfl]
      rw [payload_from_bytes_ack network_id accepted hid]
      rfl
  | ForwardData layer_id data =>
      obtain ⟨-, hdata⟩ := hp
      rw [show MessagePayload.tag (.ForwardData layer_id data)
        = .ForwardData from rfl]
      rw [payload_from_bytes_forward layer_id data hdata (by omega)]
      rfl
  | BackwardData layer_id gradients =>
      obtain ⟨-, hdata⟩ := hp
      rw [show MessagePayload.tag (.BackwardData layer_id gradients)
        = .BackwardData from rfl]
      rw [payload_from_bytes_backward layer_id gradients hdata (by omega)]
      rfl
  | HebbianData layer_id correlations learning_rate =>
      obtain ⟨-, hdata, hrate⟩ := hp
      rw [show MessagePayload.tag (.HebbianData layer_id correlations
        learning_rate) = .HebbianData from rfl]
      rw [payload_from_bytes_hebbian layer_id correlations learning_rate
        hdata hrate (by omega)]
      rfl
  | WeightSync layer_id weights biases => rfl
  | Heartbeat timestamp =>
      rw [show MessagePayload.tag (.Heartbeat timestamp)
        = .Heartbeat from rfl]
      rw [payload_from_bytes_heartbeat timestamp hp]
      rfl
  | Disconnect reason => rfl
  | Error code message => rfl

/-- Claim C1 (witness): the amended round-trip theorem applied to a concrete
handshake message with name bytes, layer widths, capability bits, a NaN
float pattern carried in a concrete `ForwardData` message, and the negative
zero pattern: the handshake identifier comes back byte-swapped, the float
patterns come back bit-exact. -/
theorem nnp_roundtrip_amended_witness :
    (WfMessage ⟨.Handshake, 5,
        .Handshake [0, 1, 2, 3, 4, 5, 6, 7, 8, 9, 10, 11, 12, 13, 14, 15]
          [66, 101] [3, 6, 2] 7⟩
      ∧ NetworkMessage.from_bytes
          (NetworkMessage.to_bytes ⟨.Handshake, 5,
            .Handshake [0, 1, 2, 3, 4, 5, 6, 7, 8, 9, 10, 11, 12, 13, 14, 15]
              [66, 101] [3, 6, 2] 7⟩)
          = expectedRoundTrip ⟨.Handshake, 5,
              .Handshake [0, 1, 2, 3, 4, 5, 6, 7, 8, 9, 10, 11, 12, 13, 14,
                15] [66, 101] [3, 6, 2] 7⟩)
    ∧ NetworkMessage.from_bytes
        (NetworkMessage.to_bytes ⟨.ForwardData, 1,
          .ForwardData 0 [0x7FC00000, 0x80000000]⟩)
        = expectedRoundTrip ⟨.ForwardData, 1,
            .ForwardData 0 [0x7FC00000, 0x80000000]⟩ := by
  refine ⟨⟨by decide, ?_⟩, ?_⟩
  · exact nnp_roundtrip_amended _ (by decide) (by decide) (by decide)
  · exact nnp_roundtrip_amended _ (by decide) (by decide) (by decide)

/-! ## Header layout and decode validation order -/

/-- Claim C5: encoding is total (this function always produces a buffer)
and the first 22 bytes of every encoded well-formed message are exactly the
magic constant 4E 4E 50 00, the version byte 1, the message-type code, the
4-byte big-endian payload length, the 8-byte big-endian sequence number and
the 4-byte big-endian CRC32 computed over exactly the payload bytes that
follow the header. -/
theorem nnp_encode_header (m : NetworkMessage) (hwf : WfMessage m) :
    m.to_bytes.length = 22 + m.payload.to_bytes.length
    ∧ m.to_bytes.take 4 = [0x4E, 0x4E, 0x50, 0x00]
    ∧ m.to_bytes.getD 4 0 = 1
    ∧ m.to_bytes.getD 5 0 = m.msg_type.code
    ∧ (m.to_bytes.drop 6).take 4 = be32 m.payload.to_bytes.length
    ∧ readBE ((m.to_bytes.drop 6).take 4)
        = m.payload.to_bytes.length % 2^32
    ∧ (m.to_bytes.drop 10).take 8 = be64 m.sequence
    ∧ readBE ((m.to_bytes.drop 10).take 8) = m.sequence
    ∧ (m.to_bytes.drop 18).take 4 = be32 (crc32 (m.to_bytes.drop 22))
    ∧ readBE ((m.to_bytes.drop 18).take 4) = crc32 (m.to_bytes.drop 22)
    ∧ m.to_bytes.drop 22 = m.payload.to_bytes := by
  have hcrc : crc32 m.payload.to_bytes < 2^32 :=
    crc32_lt _ (payload_to_bytes_lt m.payload hwf.2)
  refine ⟨to_bytes_length m, rfl, rfl, rfl, rfl, ?_, rfl, ?_, rfl, ?_, rfl⟩
  · rw [show (m.to_bytes.drop 6).take 4 = be32 m.payload.to_bytes.length
      from rfl, readBE_be32]
  · rw [show (m.to_bytes.drop 10).take 8 = be64 m.sequence from rfl,
      readBE_be64, Nat.mod_eq_of_lt hwf.1]
  · rw [show (m.to_bytes.drop 18).take 4
        = be32 (crc32 (m.to_bytes.drop 22)) from rfl, readBE_be32,
      show m.to_bytes.drop 22 = m.payload.to_bytes from rfl,
      Nat.mod_eq_of_lt hcrc]

/-- Claim C5 (witness): the header-layout theorem applied to a concrete
heartbeat message. -/
theorem nnp_encode_header_witness :
    WfMessage ⟨.Heartbeat, 3, .Heartbeat 1700000000⟩
    ∧ (NetworkMessage.to_bytes ⟨.Heartbeat, 3, .Heartbeat 1700000000⟩).take 4
        = [0x4E, 0x4E, 0x50, 0x00] :=
  ⟨by decide, (nnp_encode_header ⟨.Heartbeat, 3, .Heartbeat 1700000000⟩
    (by decide)).2.1⟩

/-- Claim C2: the decoder validates in order and returns the error of the
first failed check: short buffer gives InvalidLength regardless of content;
then wrong magic gives InvalidMagic; then a version byte other than 1 gives
UnsupportedVersion; then a total length different from 22 plus the declared
payload length gives InvalidLength (payload decoding is never attempted);
then a CRC32 mismatch over the payload bytes gives ChecksumMismatch. The
decoder is a pure function of the buffer, so no failure mutates caller
state. -/
theorem nnp_decode_validation_order (bytes : List Nat) :
    (bytes.length < 22 → NetworkMessage.from_bytes bytes
        = .err .InvalidLength)
    ∧ (22 ≤ bytes.length → bytes.take 4 ≠ PROTOCOL_MAGIC →
        NetworkMessage.from_bytes bytes = .err .InvalidMagic)
    ∧ (22 ≤ bytes.length → bytes.take 4 = PROTOCOL_MAGIC →
        bytes.getD 4 0 ≠ 1 →
        NetworkMessage.from_bytes bytes = .err .UnsupportedVersion)
    ∧ (22 ≤ bytes.length → bytes.take 4 = PROTOCOL_MAGIC →
        bytes.getD 4 0 = 1 →
        bytes.length ≠ 22 + readBE ((bytes.drop 6).take 4) →
        NetworkMessage.from_bytes bytes = .err .InvalidLength)
    ∧ (22 ≤ bytes.length → bytes.take 4 = PROTOCOL_MAGIC →
        bytes.getD 4 0 = 1 →
        bytes.length = 22 + readBE ((bytes.drop 6).take 4) →
        crc32 (bytes.drop 22) ≠ readBE ((bytes.drop 18).take 4) →
        NetworkMessage.from_bytes bytes = .err .ChecksumMismatch) := by
  refine ⟨fun h1 => ?_, fun h1 h2 => ?_, fun h1 h2 h3 => ?_,
    fun h1 h2 h3 h4 => ?_, fun h1 h2 h3 h4 h5 => ?_⟩
  · simp only [NetworkMessage.from_bytes, HEADER_SIZE, PROTOCOL_VERSION]
    rw [if_pos h1]
  · simp only [NetworkMessage.from_bytes, HEADER_SIZE, PROTOCOL_VERSION]
    rw [if_neg (by omega), if_pos h2]
  · simp only [NetworkMessage.from_bytes, HEADER_SIZE, PROTOCOL_VERSION]
    rw [if_neg (by omega), if_neg (fun hc => hc h2), if_pos h3]
  · simp only [NetworkMessage.from_bytes, HEADER_SIZE, PROTOCOL_VERSION]
    rw [if_neg (by omega), if_neg (fun hc => hc h2),
      if_neg (fun hc => hc h3), if_pos h4]
  · simp only [NetworkMessage.from_bytes, HEADER_SIZE, PROTOCOL_VERSION]
    rw [if_neg (by omega), if_neg (fun hc => hc h2),
      if_neg (fun hc => hc h3), if_neg (fun hc => hc h4), if_pos h5]

/-- Claim C2 (witness): the validation-order theorem applied to concrete
buffers exercising the first-failed-check branches: the empty buffer is
shorter than 22 bytes and yields InvalidLength; a 22-byte buffer of zeros
fails the magic check and yields InvalidMagic. -/
theorem nnp_decode_validation_order_witness :
    (([] : List Nat).length < 22
      ∧ NetworkMessage.from_bytes [] = .err .InvalidLength)
    ∧ ((List.replicate 22 0).length ≥ 22
      ∧ NetworkMessage.from_bytes (List.replicate 22 0)
          = .err .InvalidMagic) :=
  ⟨⟨by decide, (nnp_decode_validation_order []).1 (by decide)⟩,
   ⟨by decide, (nnp_decode_validation_order (List.replicate 22 0)).2.1
      (by decide) (by decide)⟩⟩

/-! ## Checksum sensitivity to single-bit flips -/

/-- Flip bit `k` of the byte at index `i` of a buffer. -/
def flipBitAt (l : List Nat) (i k : Nat) : List Nat :=
  l.set i ((l.getD i 0) ^^^ (1 <<< k))

/-- Decomposition of a list around the element at a valid index. -/
theorem take_getD_drop (l : List Nat) (j : Nat) (h : j < l.length) :
    l.take j ++ l.getD j 0 :: l.drop (j + 1) = l := by
  induction l generalizing j with
  | nil => simp at h
  | cons a l ih =>
      cases j with
      | zero => simp
      | succ j =>
          simp only [List.take_succ_cons, List.getD_cons_succ,
            List.drop_succ_cons, List.cons_append, List.cons.injEq, true_and]
          exact ih j (by simpa using h)

/-- A buffer with a well-formed header whose payload fails the checksum
comparison decodes to `ChecksumMismatch`, whatever else the payload is. -/
theorem from_bytes_header_checksum (mt : MessageType) (seq L C : Nat)
    (q : List Nat) (hq : q.length = L) (hL : L < 2^32) (hC : C < 2^32)
    (hcrc : crc32 q ≠ C) :
    NetworkMessage.from_bytes (PROTOCOL_MAGIC ++ [PROTOCOL_VERSION]
      ++ [mt.code] ++ be32 L ++ be64 seq ++ be32 C ++ q)
      = .err .ChecksumMismatch := by
  set bs := PROTOCOL_MAGIC ++ [PROTOCOL_VERSION] ++ [mt.code] ++ be32 L
    ++ be64 seq ++ be32 C ++ q with hbs
  have hlen : bs.length = 22 + q.length := by
    rw [hbs]
    simp only [PROTOCOL_MAGIC, be32, be64, List.length_append,
      List.length_cons, List.length_nil]
  have h4 : bs.take 4 = PROTOCOL_MAGIC := rfl
  have hv : bs.getD 4 0 = PROTOCOL_VERSION := rfl
  have hLr : (bs.drop 6).take 4 = be32 L := rfl
  have hCr : (bs.drop 18).take 4 = be32 C := rfl
  have hP : bs.drop 22 = q := rfl
  simp only [NetworkMessage.from_bytes, HEADER_SIZE, h4, hv, hLr, hCr, hP,
    hlen, readBE_be32]
  rw [if_neg (by omega), if_neg (by simp), if_neg (by simp),
    if_neg (by omega), if_pos (by rw [Nat.mod_eq_of_lt hC]; exact hcrc)]

/-- Claim C3: flipping any single bit of any payload byte of an encoded
well-formed message (whose payload fits the 32-bit length field) makes
decoding fail with `ChecksumMismatch` — never another error, never a
successful decode: the header checks still pass, and CRC-32 detects every
single-bit difference because its polynomial step is an xor-linear bijection
that never maps a nonzero 32-bit difference to zero. -/
theorem nnp_checksum_bitflip (m : NetworkMessage) (hwf : WfMessage m)
    (hlen : m.payload.to_bytes.length < 2^32) (i k : Nat) (hi22 : 22 ≤ i)
    (hi : i < m.to_bytes.length) (hk : k < 8) :
    NetworkMessage.from_bytes (flipBitAt m.to_bytes i k)
      = .err .ChecksumMismatch := by
  obtain ⟨j, rfl⟩ : ∃ j, i = 22 + j := ⟨i - 22, by omega⟩
  have hpbytes : ∀ b ∈ m.payload.to_bytes, b < 256 :=
    payload_to_bytes_lt m.payload hwf.2
  have hj : j < m.payload.to_bytes.length := by
    have := to_bytes_length m
    omega
  have hsplit : m.to_bytes = PROTOCOL_MAGIC ++ [PROTOCOL_VERSION]
      ++ [m.msg_type.code] ++ be32 m.payload.to_bytes.length
      ++ be64 m.sequence ++ be32 (crc32 m.payload.to_bytes)
      ++ m.payload.to_bytes := rfl
  have hgetD : m.to_bytes.getD (22 + j) 0 = m.payload.to_bytes.getD j 0 := by
    have h := getD_drop m.to_bytes 22 j 0
    rw [show m.to_bytes.drop 22 = m.payload.to_bytes from rfl] at h
    exact h.symm
  have hflip : flipBitAt m.to_bytes (22 + j) k
      = PROTOCOL_MAGIC ++ [PROTOCOL_VERSION] ++ [m.msg_type.code]
        ++ be32 m.payload.to_bytes.length ++ be64 m.sequence
        ++ be32 (crc32 m.payload.to_bytes)
        ++ m.payload.to_bytes.set j
            (m.payload.to_bytes.getD j 0 ^^^ (1 <<< k)) := by
    unfold flipBitAt
    rw [hgetD]
    have h := set_append_add (PROTOCOL_MAGIC ++ [PROTOCOL_VERSION]
      ++ [m.msg_type.code] ++ be32 m.payload.to_bytes.length
      ++ be64 m.sequence ++ be32 (crc32 m.payload.to_bytes))
      m.payload.to_bytes j (m.payload.to_bytes.getD j 0 ^^^ (1 <<< k))
    rw [show (PROTOCOL_MAGIC ++ [PROTOCOL_VERSION] ++ [m.msg_type.code]
      ++ be32 m.payload.to_bytes.length ++ be64 m.sequence
      ++ be32 (crc32 m.payload.to_bytes)).length = 22 from rfl] at h
    rw [hsplit]
    exact h
  have hkpow : (1 <<< k) < 256 := by
    rw [Nat.one_shiftLeft]
    have := Nat.pow_lt_pow_right (a := 2) (by norm_num) hk
    omega
  have hbyte : m.payload.to_bytes.getD j 0 < 256 := by
    rw [List.getD_eq_getElem _ _ hj]
    exact hpbytes _ (List.getElem_mem hj)
  have hx256 : m.payload.to_bytes.getD j 0 ^^^ (1 <<< k) < 256 := by
    have h8 : m.payload.to_bytes.getD j 0 < 2^8 := by
      have := hbyte; omega
    have hk8 : (1 <<< k) < 2^8 := by
      have := hkpow; omega
    have := Nat.xor_lt_two_pow h8 hk8
    omega
  have hxne : m.payload.to_bytes.getD j 0 ^^^ (1 <<< k)
      ≠ m.payload.to_bytes.getD j 0 := by
    intro h
    have h2 := congrArg (fun z => m.payload.to_bytes.getD j 0 ^^^ z) h
    simp only [← Nat.xor_assoc, Nat.xor_self, Nat.zero_xor] at h2
    rw [Nat.one_shiftLeft] at h2
    exact (Nat.two_pow_pos k).ne' h2
  have hcrcne : crc32 (m.payload.to_bytes.set j
      (m.payload.to_bytes.getD j 0 ^^^ (1 <<< k)))
      ≠ crc32 m.payload.to_bytes := by
    rw [List.set_eq_take_cons_drop _ hj]
    conv_rhs => rw [← take_getD_drop m.payload.to_bytes j hj]
    exact crc32_ne_of_single_byte _ _ _ _
      (fun b hb => hpbytes b (List.mem_of_mem_take hb))
      (fun b hb => hpbytes b (List.mem_of_mem_drop hb))
      (by omega) (by omega) hxne
  rw [hflip]
  rw [List.append_assoc _ (be32 (crc32 m.payload.to_bytes)) _]
  exact from_bytes_header_checksum m.msg_type m.sequence
    m.payload.to_bytes.length (crc32 m.payload.to_bytes) _
    (by simp) hlen (crc32_lt _ hpbytes) hcrcne

/-- Claim C3 (witness): the bit-flip theorem applied to a concrete heartbeat
message, flipping bit 0 of the first payload byte. -/
theorem nnp_checksum_bitflip_witness :
    WfMessage ⟨.Heartbeat, 9, .Heartbeat 42⟩
    ∧ NetworkMessage.from_bytes
        (flipBitAt (NetworkMessage.to_bytes ⟨.Heartbeat, 9, .Heartbeat 42⟩)
          22 0)
        = .err .ChecksumMismatch :=
  ⟨by decide, nnp_checksum_bitflip ⟨.Heartbeat, 9, .Heartbeat 42⟩ (by decide)
    (by decide) 22 0 (by decide) (by decide) (by decide)⟩

/-! ## Unchecked one-byte reads in the Handshake payload decoder -/

set_option maxRecDepth 4096 in
/-- Claim C4 (code evaluated at the failing input): a `Handshake` payload of
exactly 16 bytes — ending immediately after the node identifier — drives the
decoder into the unchecked `bytes[offset]` read of the name length and
aborts with an index panic instead of returning `InvalidPayload`; the same
panic is reachable from a full frame whose header and checksum are valid. -/
theorem nnp_handshake_decoder_oob :
    MessagePayload.from_bytes .Handshake (List.replicate 16 0) = .oob
    ∧ NetworkMessage.from_bytes (PROTOCOL_MAGIC ++ [1] ++ [0x01] ++ be32 16
        ++ be64 0 ++ be32 (crc32 (List.replicate 16 0))
        ++ List.replicate 16 0) = .oob := by
  constructor <;> decide

/-! ## Length prefixes written modulo 256 -/

/-- The name-length byte of an encoded handshake is the name length reduced
modulo 256, whatever the name length is. -/
theorem handshake_bytes_name_byte (idb nm lay : List Nat) (caps : Nat)
    (hid : idb.length = 16) :
    (MessagePayload.to_bytes (.Handshake idb nm lay caps)).getD 16 0
      = nm.length % 256 := by
  have hp : MessagePayload.to_bytes (.Handshake idb nm lay caps)
      = idb ++ ([nm.length % 256] ++ (nm ++ ([lay.length % 256]
        ++ ((lay.map be16).flatten ++ be32 caps)))) := by
    simp only [MessagePayload.to_bytes, List.append_assoc]
  rw [hp, List.getD_append_right _ _ _ _ (le_of_eq hid)]
  simp [hid]

/-- Dropping the identifier and name-length byte of an encoded handshake
exposes the name followed by the rest of the payload. -/
theorem handshake_bytes_drop17 (idb nm lay : List Nat) (caps : Nat)
    (hid : idb.length = 16) :
    (MessagePayload.to_bytes (.Handshake idb nm lay caps)).drop 17
      = nm ++ ([lay.length % 256] ++ ((lay.map be16).flatten
        ++ be32 caps)) := by
  have hp : MessagePayload.to_bytes (.Handshake idb nm lay caps)
      = idb ++ ([nm.length % 256] ++ (nm ++ ([lay.length % 256]
        ++ ((lay.map be16).flatten ++ be32 caps)))) := by
    simp only [MessagePayload.to_bytes, List.append_assoc]
  rw [hp, show (17 : Nat) = idb.length + 1 by omega, drop_append_add]
  rfl

/-- The layer-count byte of an encoded handshake sits right after the name
and is the layer count reduced modulo 256, whatever the lengths are. -/
theorem handshake_bytes_count_byte (idb nm lay : List Nat) (caps : Nat)
    (hid : idb.length = 16) :
    (MessagePayload.to_bytes (.Handshake idb nm lay caps)).getD
      (17 + nm.length) 0 = lay.length % 256 := by
  have h := getD_drop (MessagePayload.to_bytes (.Handshake idb nm lay caps))
    17 nm.length 0
  rw [handshake_bytes_drop17 idb nm lay caps hid,
    List.getD_append_right _ _ _ _ (Nat.le_refl nm.length)] at h
  simpa using h.symm

/-- If the handshake payload decoder succeeds, the payload it returns is a
`Handshake` whose identifier is the byte-swap of the first 16 bytes and
whose name is exactly the name-length-byte-sized window after byte 17. -/
theorem handshake_decode_shape (bs : List Nat) (r : MessagePayload)
    (h : MessagePayload.from_bytes .Handshake bs = .ok r) :
    ∃ lay caps, r = .Handshake (uuidFromBytesLE (bs.take 16))
      ((bs.drop 17).take (bs.getD 16 0)) lay caps := by
  simp only [MessagePayload.from_bytes] at h
  split at h
  · cases h
  · split at h
    · cases h
    · split at h
      · cases h
      · split at h
        · cases h
        · split at h
          · split at h
            · cases h
            · cases h
              exact ⟨_, _, rfl⟩
          · cases h
          · cases h

/-- Claim C10: every one-byte length prefix is written with `as u8`, that
is, reduced modulo 256: the handshake name-length byte, the handshake
layer-count byte, the disconnect reason-length byte and the error
message-length byte; the full string bytes are nevertheless written after
the prefix, so for a name longer than 255 bytes the prefix disagrees with
the bytes written, encode still succeeds (it is a total function), no error
is ever reported, and the encoded payload can no longer decode back to the
original payload: any successful decode returns a name of the truncated
length. -/
theorem nnp_length_prefix_truncation :
    (∀ (idb nm lay : List Nat) (caps : Nat), idb.length = 16 →
      (MessagePayload.to_bytes (.Handshake idb nm lay caps)).getD 16 0
          = nm.length % 256
        ∧ ((MessagePayload.to_bytes (.Handshake idb nm lay caps)).drop
            17).take nm.length = nm
        ∧ (MessagePayload.to_bytes (.Handshake idb nm lay caps)).getD
            (17 + nm.length) 0 = lay.length % 256)
    ∧ (∀ reason : List Nat,
        (MessagePayload.to_bytes (.Disconnect reason)).getD 0 0
            = reason.length % 256
          ∧ (MessagePayload.to_bytes (.Disconnect reason)).drop 1 = reason)
    ∧ (∀ (code : Nat) (message : List Nat),
        (MessagePayload.to_bytes (.Error code message)).getD 2 0
            = message.length % 256
          ∧ (MessagePayload.to_bytes (.Error code message)).drop 3 = message)
    ∧ (∀ (idb nm lay : List Nat) (caps : Nat) (r : MessagePayload),
        idb.length = 16 → nm.length > 255 →
        MessagePayload.from_bytes .Handshake
          (MessagePayload.to_bytes (.Handshake idb nm lay caps)) = .ok r →
        r ≠ .Handshake idb nm lay caps
          ∧ r ≠ .Handshake (uuidFromBytesLE idb) nm lay caps) := by
  refine ⟨fun idb nm lay caps hid => ⟨handshake_bytes_name_byte idb nm lay
      caps hid, ?_, handshake_bytes_count_byte idb nm lay caps hid⟩,
    fun reason => ⟨rfl, rfl⟩, fun code message => ⟨rfl, rfl⟩,
    fun idb nm lay caps r hid hn h => ?_⟩
  · rw [handshake_bytes_drop17 idb nm lay caps hid]
    exact List.take_left' rfl
  · obtain ⟨lay', caps', rfl⟩ := handshake_decode_shape _ r h
    have hname : ((MessagePayload.to_bytes
        (.Handshake idb nm lay caps)).drop 17).take
        ((MessagePayload.to_bytes (.Handshake idb nm lay caps)).getD 16 0)
        = nm.take (nm.length % 256) := by
      rw [handshake_bytes_name_byte idb nm lay caps hid,
        handshake_bytes_drop17 idb nm lay caps hid,
        List.take_append_of_le_length (by omega)]
    have hlen' : (((MessagePayload.to_bytes
        (.Handshake idb nm lay caps)).drop 17).take
        ((MessagePayload.to_bytes (.Handshake idb nm lay caps)).getD 16 0)).length
        = nm.length % 256 := by
      rw [hname, List.length_take]
      omega
    constructor
    · intro hcontra
      rw [MessagePayload.Handshake.injEq] at hcontra
      have := hcontra.2.1
      have : nm.length % 256 = nm.length := by rw [← hlen', this]
      omega
    · intro hcontra
      rw [MessagePayload.Handshake.injEq] at hcontra
      have := hcontra.2.1
      have : nm.length % 256 = nm.length := by rw [← hlen', this]
      omega

set_option maxRecDepth 8192 in
/-- Claim C10 (witness): the truncation theorem applied to a handshake with
a 256-byte name: the prefix byte is 256 % 256 = 0, and the only value the
payload still decodes to is not the original — here the decoder returns an
empty name, empty layers and zero capabilities read out of the misaligned
buffer. -/
theorem nnp_length_prefix_truncation_witness :
    (MessagePayload.to_bytes (.Handshake
        [0, 1, 2, 3, 4, 5, 6, 7, 8, 9, 10, 11, 12, 13, 14, 15]
        (List.replicate 256 0) [3] 7)).getD 16 0
      = (List.replicate 256 (0 : Nat)).length % 256
    ∧ (MessagePayload.Handshake (uuidFromBytesLE
          [0, 1, 2, 3, 4, 5, 6, 7, 8, 9, 10, 11, 12, 13, 14, 15]) [] [] 0
        ≠ .Handshake [0, 1, 2, 3, 4, 5, 6, 7, 8, 9, 10, 11, 12, 13, 14, 15]
            (List.replicate 256 0) [3] 7) :=
  ⟨(nnp_length_prefix_truncation.1
      [0, 1, 2, 3, 4, 5, 6, 7, 8, 9, 10, 11, 12, 13, 14, 15]
      (List.replicate 256 0) [3] 7 (by decide)).1,
   (nnp_length_prefix_truncation.2.2.2
      [0, 1, 2, 3, 4, 5, 6, 7, 8, 9, 10, 11, 12, 13, 14, 15]
      (List.replicate 256 0) [3] 7
      (.Handshake (uuidFromBytesLE
        [0, 1, 2, 3, 4, 5, 6, 7, 8, 9, 10, 11, 12, 13, 14, 15]) [] [] 0)
      (by decide) (by decide) (by decide)).1⟩

/-! ## Per-connection read loop (`DistributedNetwork::handle_connection`) -/

/-- Outcome of one iteration of the read loop of `handle_connection`:
clean exit on peer close, task failure on a transport error, loop
continuation with or without a forwarded message, or a decode panic. -/
inductive IterOutcome where
  | exitOk
  | exitErr
  | continueNoMsg
  | continueMsg (m : NetworkMessage)
  | crash
deriving DecidableEq

/-- One iteration of the read loop of `handle_connection` over the in-order
byte stream of one connection: read exactly 22 header bytes (the stream
ending before that is the peer closing — `break` and the task returns Ok);
if the header magic does not match, log and `continue`; otherwise read the
declared payload length (the stream ending inside the payload makes
`read_exact` fail, and the `?` operator turns that into a task failure);
then parse the complete frame with `NetworkMessage::from_bytes` — a parsed
message is forwarded (the handshake special case is modelled separately by
`processInbound`), and a parse error of any kind is logged and the loop
continues. Returns the outcome and the remaining stream. -/
def connectionIter (stream : List Nat) : IterOutcome × List Nat :=
  if stream.length < 22 then (.exitOk, stream)
  else
    let header := stream.take 22
    if header.take 4 ≠ PROTOCOL_MAGIC then (.continueNoMsg, stream.drop 22)
    else
      let payload_len := readBE ((header.drop 6).take 4)
      if stream.length < 22 + payload_len then (.exitErr, [])
      else
        match NetworkMessage.from_bytes (stream.take (22 + payload_len)) with
        | .ok message =>
            (.continueMsg message, stream.drop (22 + payload_len))
        | .err _ => (.continueNoMsg, stream.drop (22 + payload_len))
        | .oob => (.crash, stream.drop (22 + payload_len))

set_option maxRecDepth 8192 in
/-- Claim C6 (counterexample): a frame with correct magic but version byte 2
fails decoding with `UnsupportedVersion` — a non-magic decode error — yet
the read loop continues and the next frame on the same connection is still
processed into a forwarded message, contradicting the claim that every
non-magic decode error terminates the connection task. -/
theorem nnp_read_loop_counterexample :
    connectionIter ((PROTOCOL_MAGIC ++ [2] ++ [0x20] ++ be32 0 ++ be64 0
        ++ be32 (crc32 []))
      ++ NetworkMessage.to_bytes ⟨.Heartbeat, 1, .Heartbeat 7⟩)
      = (.continueNoMsg, NetworkMessage.to_bytes ⟨.Heartbeat, 1, .Heartbeat 7⟩)
    ∧ (connectionIter
        (NetworkMessage.to_bytes ⟨.Heartbeat, 1, .Heartbeat 7⟩)).1
      = .continueMsg ⟨.Heartbeat, 1, .Heartbeat 7⟩ := by
  constructor <;> decide

/-- Claim C6 (amended): in the read loop, a header-read hitting the end of
the stream exits the task cleanly; a bad magic constant skips the frame and
the loop continues; a stream ending inside the declared payload is a
transport error that terminates the task as a failure; and every decode
error on a complete frame — wrong version, length mismatch, checksum
mismatch, invalid payload, unsupported message type alike — is logged and
the loop continues with the rest of the stream: no decode error terminates
the connection task; only transport-level errors do. -/
theorem nnp_read_loop_amended (stream : List Nat) :
    (stream.length < 22 → connectionIter stream = (.exitOk, stream))
    ∧ (22 ≤ stream.length → (stream.take 22).take 4 ≠ PROTOCOL_MAGIC →
        connectionIter stream = (.continueNoMsg, stream.drop 22))
    ∧ (22 ≤ stream.length → (stream.take 22).take 4 = PROTOCOL_MAGIC →
        stream.length < 22 + readBE (((stream.take 22).drop 6).take 4) →
        connectionIter stream = (.exitErr, []))
    ∧ (22 ≤ stream.length → (stream.take 22).take 4 = PROTOCOL_MAGIC →
        22 + readBE (((stream.take 22).drop 6).take 4) ≤ stream.length →
        ∀ e, NetworkMessage.from_bytes
            (stream.take (22 + readBE (((stream.take 22).drop 6).take 4)))
            = .err e →
        connectionIter stream = (.continueNoMsg,
          stream.drop (22 + readBE (((stream.take 22).drop 6).take 4))))
    ∧ (22 ≤ stream.length → (stream.take 22).take 4 = PROTOCOL_MAGIC →
        22 + readBE (((stream.take 22).drop 6).take 4) ≤ stream.length →
        ∀ msg, NetworkMessage.from_bytes
            (stream.take (22 + readBE (((stream.take 22).drop 6).take 4)))
            = .ok msg →
        connectionIter stream = (.continueMsg msg,
          stream.drop (22 + readBE (((stream.take 22).drop 6).take 4)))) := by
  refine ⟨fun h1 => ?_, fun h1 h2 => ?_, fun h1 h2 h3 => ?_,
    fun h1 h2 h3 e he => ?_, fun h1 h2 h3 msg hmsg => ?_⟩
  · simp only [connectionIter]
    rw [if_pos h1]
  · simp only [connectionIter]
    rw [if_neg (by omega), if_pos h2]
  · simp only [connectionIter]
    rw [if_neg (by omega), if_neg (fun hc => hc h2), if_pos h3]
  · simp only [connectionIter]
    rw [if_neg (by omega), if_neg (fun hc => hc h2), if_neg (by omega), he]
  · simp only [connectionIter]
    rw [if_neg (by omega), if_neg (fun hc => hc h2), if_neg (by omega), hmsg]

set_option maxRecDepth 8192 in
/-- Claim C6 (witness): the amended read-loop theorem applied to concrete
streams: an empty stream exits cleanly, and a complete version-2 frame is
skipped with the loop continuing. -/
theorem nnp_read_loop_amended_witness :
    connectionIter [] = (.exitOk, [])
    ∧ connectionIter (PROTOCOL_MAGIC ++ [2] ++ [0x20] ++ be32 0 ++ be64 0
        ++ be32 (crc32 [])) = (.continueNoMsg, []) := by
  refine ⟨(nnp_read_loop_amended []).1 (by decide), ?_⟩
  have h := (nnp_read_loop_amended (PROTOCOL_MAGIC ++ [2] ++ [0x20] ++ be32 0
    ++ be64 0 ++ be32 (crc32 []))).2.2.2.1 (by decide) (by decide)
    (by decide) .UnsupportedVersion (by decide)
  rw [h]
  decide

/-! ## Handshake processing and the connection registry -/

/-- Connection metadata (struct `NetworkConnection`; the live socket handle
of type `Option<TcpStream>` is not representable in a pure model and is
omitted — the accept path stores `None` there anyway). -/
structure NetworkConnection where
  peer_id : List Nat
  capabilities : Nat
  last_heartbeat : Nat
  sequence_counter : Nat
deriving DecidableEq

/-- Insertion into the shared `HashMap<NetworkId, NetworkConnection>`: the
new binding replaces any previous binding of the same key. -/
def registryInsert (reg : List (List Nat × NetworkConnection))
    (k : List Nat) (v : NetworkConnection) :
    List (List Nat × NetworkConnection) :=
  (k, v) :: reg.filter (fun p => p.1 ≠ k)

/-- Lookup in the registry (`HashMap::get`). -/
def registryLookup (reg : List (List Nat × NetworkConnection))
    (k : List Nat) : Option NetworkConnection :=
  (reg.find? (fun p => p.1 = k)).map (fun p => p.2)

/-- Looking up the key just inserted returns the inserted entry. -/
theorem registryLookup_insert (reg : List (List Nat × NetworkConnection))
    (k : List Nat) (v : NetworkConnection) :
    registryLookup (registryInsert reg k v) k = some v := by
  simp [registryLookup, registryInsert, List.find?]

/-- The handshake branch of `handle_connection`: when a successfully parsed
message carries a `Handshake` payload, a `NetworkConnection` with
`capabilities: 0` (the handshake's advertised capability flags are NOT
copied — the code stores 0 with a "will be updated" comment that nothing
fulfils) and `sequence_counter: 0` is inserted keyed by the advertised peer
id, and a `HandshakeAck` with `accepted = true` and the hardcoded
`sequence: 1` is written back on the socket. Any other payload leaves the
registry alone and writes nothing. Returns the new registry and the bytes
written back, if any. -/
def processInbound (our_network_id : List Nat) (now : Nat)
    (reg : List (List Nat × NetworkConnection)) (msg : NetworkMessage) :
    (List (List Nat × NetworkConnection)) × Option (List Nat) :=
  match msg.payload with
  | .Handshake network_id _ _ _ =>
      (registryInsert reg network_id ⟨network_id, 0, now, 0⟩,
       some (NetworkMessage.to_bytes
         ⟨.HandshakeAck, 1, .HandshakeAck our_network_id true⟩))
  | _ => (reg, none)

/-- The tail of `connect_to` after the ack frame has been read: parse it;
on a `HandshakeAck` with `accepted = true`, insert a connection keyed by the
peer id taken from the ack (capabilities 0, sequence counter 0) and return
that peer id; `accepted = false`, a non-ack payload, or a decode error all
fail (`InvalidPayload` for the first two, the decode error otherwise). -/
def connectProcessAck (reg : List (List Nat × NetworkConnection)) (now : Nat)
    (ackBytes : List Nat) :
    PResult ((List (List Nat × NetworkConnection)) × List Nat) :=
  match NetworkMessage.from_bytes ackBytes with
  | .ok ack_message =>
      match ack_message.payload with
      | .HandshakeAck network_id accepted =>
          if accepted then
            .ok (registryInsert reg network_id ⟨network_id, 0, now, 0⟩,
                 network_id)
          else .err .InvalidPayload
      | _ => .err .InvalidPayload
  | .err e => .err e
  | .oob => .oob

set_option maxRecDepth 8192 in
/-- Claim C7 (counterexample): node A with identifier 00010203-0405-0607-…
and capability flags 7 connects to node B. B decodes the handshake, but the
identifier arrives byte-swapped (`from_bytes_le` versus `as_bytes`), so B's
registry has no entry keyed by A's advertised identifier — the entry is
keyed by the swapped identifier — and its capability flags are 0, not the 7
carried by the handshake payload. -/
theorem nnp_handshake_registry_counterexample :
    NetworkMessage.from_bytes (NetworkMessage.to_bytes
        ⟨.Handshake, 1, .Handshake
          [0, 1, 2, 3, 4, 5, 6, 7, 8, 9, 10, 11, 12, 13, 14, 15] [65] [3] 7⟩)
      = .ok ⟨.Handshake, 1, .Handshake
          [3, 2, 1, 0, 5, 4, 7, 6, 8, 9, 10, 11, 12, 13, 14, 15] [65] [3] 7⟩
    ∧ registryLookup (processInbound
        [16, 17, 18, 19, 20, 21, 22, 23, 24, 25, 26, 27, 28, 29, 30, 31] 100
        [] ⟨.Handshake, 1, .Handshake
          [3, 2, 1, 0, 5, 4, 7, 6, 8, 9, 10, 11, 12, 13, 14, 15] [65] [3]
          7⟩).1
        [0, 1, 2, 3, 4, 5, 6, 7, 8, 9, 10, 11, 12, 13, 14, 15] = none
    ∧ registryLookup (processInbound
        [16, 17, 18, 19, 20, 21, 22, 23, 24, 25, 26, 27, 28, 29, 30, 31] 100
        [] ⟨.Handshake, 1, .Handshake
          [3, 2, 1, 0, 5, 4, 7, 6, 8, 9, 10, 11, 12, 13, 14, 15] [65] [3]
          7⟩).1
        [3, 2, 1, 0, 5, 4, 7, 6, 8, 9, 10, 11, 12, 13, 14, 15]
      = some ⟨[3, 2, 1, 0, 5, 4, 7, 6, 8, 9, 10, 11, 12, 13, 14, 15], 0,
          100, 0⟩ := by
  refine ⟨?_, by decide, by decide⟩
  decide

/-- Claim C7 (amended): for well-formed nodes A and B, after A's handshake
frame reaches B and B's ack reaches A: B's registry contains an entry keyed
by the byte-swap (`Uuid::from_bytes_le`) of A's advertised identifier — not
by the advertised identifier itself — whose capability flags are 0, not the
flags carried in the handshake payload; B writes back a HandshakeAck with
`accepted = true` (sequence hardcoded to 1); A's registry gains an entry for
the byte-swap of B's identifier, and A's `connect_to` returns that
byte-swapped identifier. -/
theorem nnp_handshake_registry_amended (idA nameA layersA : List Nat)
    (capsA seqA : Nat) (idB : List Nat)
    (regA regB : List (List Nat × NetworkConnection)) (nowA nowB : Nat)
    (hidA : idA.length = 16) (hnameA : nameA.length ≤ 255)
    (hlayA : layersA.length ≤ 255) (hlayvA : ∀ l ∈ layersA, l < 2^16)
    (hcapsA : capsA < 2^32) (hseqA : seqA < 2^64) (haAb : ∀ b ∈ idA, b < 256)
    (hnA : ∀ b ∈ nameA, b < 256) (hidB : idB.length = 16)
    (hbB : ∀ b ∈ idB, b < 256) :
    NetworkMessage.from_bytes (NetworkMessage.to_bytes
        ⟨.Handshake, seqA, .Handshake idA nameA layersA capsA⟩)
      = .ok ⟨.Handshake, seqA,
          .Handshake (uuidFromBytesLE idA) nameA layersA capsA⟩
    ∧ processInbound idB nowB regB ⟨.Handshake, seqA,
          .Handshake (uuidFromBytesLE idA) nameA layersA capsA⟩
        = (registryInsert regB (uuidFromBytesLE idA)
            ⟨uuidFromBytesLE idA, 0, nowB, 0⟩,
           some (NetworkMessage.to_bytes
             ⟨.HandshakeAck, 1, .HandshakeAck idB true⟩))
    ∧ registryLookup (registryInsert regB (uuidFromBytesLE idA)
          ⟨uuidFromBytesLE idA, 0, nowB, 0⟩) (uuidFromBytesLE idA)
        = some ⟨uuidFromBytesLE idA, 0, nowB, 0⟩
    ∧ connectProcessAck regA nowA (NetworkMessage.to_bytes
          ⟨.HandshakeAck, 1, .HandshakeAck idB true⟩)
        = .ok (registryInsert regA (uuidFromBytesLE idB)
            ⟨uuidFromBytesLE idB, 0, nowA, 0⟩, uuidFromBytesLE idB) := by
  refine ⟨?_, rfl, registryLookup_insert _ _ _, ?_⟩
  · have h := nnp_roundtrip_amended
      ⟨.Handshake, seqA, .Handshake idA nameA layersA capsA⟩
      ⟨hseqA, hidA, haAb, hnA, hlayvA, hcapsA⟩ rfl ⟨hnameA, hlayA⟩
    rw [h]
    rfl
  · simp only [connectProcessAck]
    rw [from_bytes_to_bytes ⟨.HandshakeAck, 1, .HandshakeAck idB true⟩
      ⟨by show (1:Nat) < 2^64; norm_num, hidB, hbB⟩ (by
        simp only [MessagePayload.to_bytes, List.length_append,
          List.length_cons, List.length_nil, hidB]
        omega)]
    rw [payload_from_bytes_ack idB true hidB]
    rfl

set_option maxRecDepth 8192 in
/-- Claim C7 (witness): the amended handshake theorem applied to concrete
nodes; the registry entry sits under the byte-swapped identifier with
capability flags 0. -/
theorem nnp_handshake_registry_amended_witness :
    registryLookup (registryInsert []
        (uuidFromBytesLE [0, 1, 2, 3, 4, 5, 6, 7, 8, 9, 10, 11, 12, 13, 14,
          15])
        ⟨uuidFromBytesLE [0, 1, 2, 3, 4, 5, 6, 7, 8, 9, 10, 11, 12, 13, 14,
          15], 0, 100, 0⟩)
      (uuidFromBytesLE [0, 1, 2, 3, 4, 5, 6, 7, 8, 9, 10, 11, 12, 13, 14,
        15])
      = some ⟨uuidFromBytesLE [0, 1, 2, 3, 4, 5, 6, 7, 8, 9, 10, 11, 12, 13,
          14, 15], 0, 100, 0⟩ :=
  (nnp_handshake_registry_amended
    [0, 1, 2, 3, 4, 5, 6, 7, 8, 9, 10, 11, 12, 13, 14, 15] [65] [3] 7 1
    [16, 17, 18, 19, 20, 21, 22, 23, 24, 25, 26, 27, 28, 29, 30, 31] [] []
    50 100 (by decide) (by decide) (by decide) (by decide) (by decide)
    (by decide) (by decide) (by decide) (by decide) (by decide)).2.2.1

/-! ## Secure send path (`secure_network.rs`) -/

/-- Certificate-derived identity and authorization data (struct
`NetworkCertificate`; the subject-string fields and raw certificate bytes
play no role on the send path and are omitted). -/
structure NetworkCertificate where
  network_id : List Nat
  valid_from : Nat
  valid_until : Nat
  capabilities : Nat
deriving DecidableEq

/-- Validity-window check (`NetworkCertificate::is_valid`); the Rust method
reads the wall clock, modelled by the explicit `now` argument in epoch
seconds. -/
def NetworkCertificate.is_valid (c : NetworkCertificate) (now : Nat) :
    Bool :=
  now ≥ c.valid_from && now ≤ c.valid_until

/-- Capability test (`NetworkCertificate::has_capability`). -/
def NetworkCertificate.has_capability (c : NetworkCertificate)
    (capability : Nat) : Bool :=
  (c.capabilities &&& capability) ≠ 0

/-- A secure, authenticated connection (struct `SecureConnection`). -/
structure SecureConnection where
  peer_id : List Nat
  peer_certificate : NetworkCertificate
  last_heartbeat : Nat
deriving DecidableEq

/-- Errors of the secure variant (enum `SecureNetworkError`; the variants
not reachable from the pure send path are omitted, and the wrapper of the
base protocol error is named `ProtocolErr` for the base `ProtocolError`). -/
inductive SecureNetworkError where
  | InvalidCertificate
  | InvalidNetworkId
  | CertificateExpired
  | InsufficientCapabilities
  | ProtocolErr (e : ProtocolError)
deriving DecidableEq

/-- The capability bit each payload kind requires on the secure send path
(the `match message.payload` of `send_secure_message`). -/
def requiredCapability : MessagePayload → Nat
  | .ForwardData .. => FORWARD_PROPAGATION
  | .BackwardData .. => BACKPROPAGATION
  | .HebbianData .. => HEBBIAN_LEARNING
  | _ => 0

/-- The secure send path (`SecureDistributedNetwork::send_secure_message`):
look up the peer; refuse with `InsufficientCapabilities` when the payload
kind requires a capability bit the peer certificate lacks; then refuse with
`CertificateExpired` when the certificate validity window does not contain
the current time; otherwise succeed. In every branch no bytes are written —
the actual transmission is an unimplemented comment in the source — so a
refusal in particular sends nothing. An unknown peer fails with the wrapped
`InvalidPayload` protocol error. -/
def send_secure_message (connections : List (List Nat × SecureConnection))
    (peer_id : List Nat) (message : NetworkMessage) (now : Nat) :
    Except SecureNetworkError Unit :=
  match (connections.find? (fun p => p.1 = peer_id)).map (fun p => p.2) with
  | some connection =>
      let required_capability := requiredCapability message.payload
      if required_capability ≠ 0
          ∧ connection.peer_certificate.has_capability required_capability
            = false then
        .error .InsufficientCapabilities
      else if connection.peer_certificate.is_valid now = false then
        .error .CertificateExpired
      else .ok ()
  | none => .error (.ProtocolErr .InvalidPayload)

/-- Claim C8: on the secure send path to a registered peer, a ForwardData,
BackwardData or HebbianData message (these require the forward-propagation,
backpropagation and Hebbian-learning bits respectively) is rejected with
`InsufficientCapabilities` when the peer certificate lacks the required
bit — before the validity window is even consulted and without sending any
bytes; when the bit is present but `now` lies outside
`[valid_from, valid_until]`, it is rejected with `CertificateExpired`; and
when the bit is present and the window contains `now`, the send succeeds. -/
theorem nnp_secure_capability_gating
    (connections : List (List Nat × SecureConnection)) (peer_id : List Nat)
    (message : NetworkMessage) (now : Nat) (connection : SecureConnection)
    (hlook : (connections.find? (fun p => p.1 = peer_id)).map (fun p => p.2)
      = some connection)
    (hreq : requiredCapability message.payload ≠ 0) :
    (requiredCapability (.ForwardData 0 []) = FORWARD_PROPAGATION
      ∧ requiredCapability (.BackwardData 0 []) = BACKPROPAGATION
      ∧ requiredCapability (.HebbianData 0 [] 0) = HEBBIAN_LEARNING)
    ∧ (connection.peer_certificate.has_capability
          (requiredCapability message.payload) = false →
        send_secure_message connections peer_id message now
          = .error .InsufficientCapabilities)
    ∧ (connection.peer_certificate.has_capability
          (requiredCapability message.payload) = true →
        (connection.peer_certificate.is_valid now
          = (connection.peer_certificate.valid_from ≤ now
              && now ≤ connection.peer_certificate.valid_until))
        ∧ (connection.peer_certificate.is_valid now = false →
            send_secure_message connections peer_id message now
              = .error .CertificateExpired)
        ∧ (connection.peer_certificate.is_valid now = true →
            send_secure_message connections peer_id message now
              = .ok ())) := by
  refine ⟨⟨rfl, rfl, rfl⟩, fun hcap => ?_, fun hcap => ⟨rfl, fun hval => ?_,
    fun hval => ?_⟩⟩
  · simp only [send_secure_message, hlook]
    rw [if_pos ⟨hreq, hcap⟩]
  · simp only [send_secure_message, hlook]
    rw [if_neg (by simp [hcap]), if_pos hval]
  · simp only [send_secure_message, hlook]
    rw [if_neg (by simp [hcap]), if_neg (by simp [hval])]

/-- Claim C8 (witness): the gating theorem applied to a concrete registry:
a peer whose certificate carries only the Hebbian-learning bit rejects a
ForwardData send with `InsufficientCapabilities`; a peer with the
forward-propagation bit and a live validity window accepts it; the same
peer outside its validity window yields `CertificateExpired`. -/
theorem nnp_secure_capability_gating_witness :
    send_secure_message [([1], ⟨[1], ⟨[1], 10, 20, HEBBIAN_LEARNING⟩, 0⟩)]
        [1] ⟨.ForwardData, 1, .ForwardData 0 [5]⟩ 15
      = .error .InsufficientCapabilities
    ∧ send_secure_message
        [([1], ⟨[1], ⟨[1], 10, 20, FORWARD_PROPAGATION⟩, 0⟩)]
        [1] ⟨.ForwardData, 1, .ForwardData 0 [5]⟩ 15 = .ok ()
    ∧ send_secure_message
        [([1], ⟨[1], ⟨[1], 10, 20, FORWARD_PROPAGATION⟩, 0⟩)]
        [1] ⟨.ForwardData, 1, .ForwardData 0 [5]⟩ 25
      = .error .CertificateExpired :=
  ⟨(nnp_secure_capability_gating
      [([1], ⟨[1], ⟨[1], 10, 20, HEBBIAN_LEARNING⟩, 0⟩)] [1]
      ⟨.ForwardData, 1, .ForwardData 0 [5]⟩ 15
      ⟨[1], ⟨[1], 10, 20, HEBBIAN_LEARNING⟩, 0⟩ (by decide)
      (by decide)).2.1 (by decide),
   ((nnp_secure_capability_gating
      [([1], ⟨[1], ⟨[1], 10, 20, FORWARD_PROPAGATION⟩, 0⟩)] [1]
      ⟨.ForwardData, 1, .ForwardData 0 [5]⟩ 15
      ⟨[1], ⟨[1], 10, 20, FORWARD_PROPAGATION⟩, 0⟩ (by decide)
      (by decide)).2.2 (by decide)).2.2 (by decide),
   ((nnp_secure_capability_gating
      [([1], ⟨[1], ⟨[1], 10, 20, FORWARD_PROPAGATION⟩, 0⟩)] [1]
      ⟨.ForwardData, 1, .ForwardData 0 [5]⟩ 25
      ⟨[1], ⟨[1], 10, 20, FORWARD_PROPAGATION⟩, 0⟩ (by decide)
      (by decide)).2.2 (by decide)).2.1 (by decide)⟩

/-! ## Outbound sequence numbers -/

/-- The shared sequence counter update (`DistributedNetwork::next_sequence`):
increment the lock-protected `u64` counter, then read it. -/
def next_sequence (counter : Nat) : Nat := (counter + 1) % 2^64

/-- One outbound send of a node: either a message built with
`next_sequence` (`connect_to`, `send_forward_data`, `send_hebbian_data`) or
the `HandshakeAck` written by the accept path of `handle_connection`, which
carries the hardcoded literal `sequence: 1` and does not touch the
counter. -/
inductive SendEvent where
  | counterSend
  | acceptPathAck
deriving DecidableEq

/-- The sequence number carried by one outbound message and the counter
state after it. -/
def emitSequence (counter : Nat) : SendEvent → Nat × Nat
  | .counterSend => (next_sequence counter, next_sequence counter)
  | .acceptPathAck => (counter, 1)

/-- Run a list of send events from a counter state, collecting the sequence
numbers carried by the outbound messages in order. -/
def runSends (counter : Nat) : List SendEvent → Nat × List Nat
  | [] => (counter, [])
  | e :: es =>
      let step := emitSequence counter e
      let rest := runSends step.1 es
      (rest.1, step.2 :: rest.2)

/-- Claim C9 (counterexample): a node that sends one counter-based message
and then writes a handshake acknowledgment from the accept path emits the
sequence numbers 1, 1 — the ack carries the hardcoded literal 1 instead of
a counter value, so the node's outbound sequence numbers are not strictly
increasing. -/
theorem nnp_sequence_counterexample :
    runSends 0 [.counterSend, .acceptPathAck] = (1, [1, 1])
    ∧ ¬ List.Chain' (fun a b => a < b) [1, 1] := by
  refine ⟨by decide, fun h => ?_⟩
  rw [List.chain'_cons] at h
  exact absurd h.1 (by omega)

/-- Counter-based sends from any 64-bit counter state emit consecutive
counter values. -/
theorem runSends_counter (k : Nat) : ∀ c, c + k < 2^64 →
    runSends c (List.replicate k .counterSend)
      = (c + k, List.range' (c + 1) k) := by
  induction k with
  | zero =>
      intro c hc
      simp [runSends]
  | succ k ih =>
      intro c hc
      have hnext : next_sequence c = c + 1 := by
        unfold next_sequence
        omega
      simp only [List.replicate_succ, runSends, emitSequence, hnext]
      rw [ih (c + 1) (by omega)]
      have h1 : c + 1 + k = c + (k + 1) := by omega
      rw [h1]
      rfl

/-- Claim C9 (amended): every outbound message built through
`next_sequence` — `connect_to`'s handshake and the typed send helpers —
carries the value of the shared counter after an increment-then-read, so a
node that sends `k` such messages from a fresh counter emits exactly the
strictly increasing sequence numbers 1, 2, …, k; but the `HandshakeAck`
written by the accept path bypasses the counter entirely and always carries
the literal sequence number 1. -/
theorem nnp_sequence_monotonic_amended (k c : Nat) (hc : c + k < 2^64) :
    runSends c (List.replicate k .counterSend)
      = (c + k, List.range' (c + 1) k)
    ∧ (∀ c', emitSequence c' .acceptPathAck = (c', 1)) :=
  ⟨runSends_counter k c hc, fun _ => rfl⟩

/-- Claim C9 (witness): three counter-based sends from a fresh counter emit
the sequence numbers 1, 2, 3. -/
theorem nnp_sequence_monotonic_amended_witness :
    runSends 0 (List.replicate 3 .counterSend) = (3, List.range' 1 3) :=
  (nnp_sequence_monotonic_amended 3 0 (by norm_num)).1
